import Mathlib

/-!
# vVoteVerifier: `jni/CryptoUtils.cpp`

A shallow embedding of the native hash-commitment check and its hex decoder.

Conventions of the embedding.

* A C string (`const char *`, and the `std::string` built from it) is the list
  of its `char`s before the terminating NUL; one list element stands for one
  `char`.
* A byte buffer is a list of naturals; every byte the code itself produces is
  reduced modulo 256.
* OpenSSL is not part of the repository. The three SHA-256 primitives are a
  parameter (`SHA256`), each returning the C return code (`true` for non-zero)
  together with the data it writes.
* A read of `n` bytes through a pointer is defined only when the pointed-to
  array holds at least `n` elements; otherwise the execution has no defined
  result (`Outcome.undefinedBehaviour`).
-/

namespace CryptoUtils

/-! ## Data model -/

/-- Value of `SHA256_DIGEST_LENGTH` from `<openssl/sha.h>`. -/
def SHA256_DIGEST_LENGTH : Nat := 32

/-- The OpenSSL primitives `SHA256_Init`, `SHA256_Update`, `SHA256_Final` over a
context type; `uninit` is the content of the local `SHA256_CTX context;` before
the first call. Each primitive returns its return code and what it writes. -/
structure SHA256 where
  /-- Type of `SHA256_CTX`. -/
  CTX : Type
  /-- State of a declared, not yet initialised context. -/
  uninit : CTX
  /-- Models `int SHA256_Init(SHA256_CTX *c)`. -/
  Init : CTX → Bool × CTX
  /-- Models `int SHA256_Update(SHA256_CTX *c, const void *data, size_t len)`,
  with the `len` bytes read from `data` passed as a list. -/
  Update : CTX → List Nat → Bool × CTX
  /-- Models `int SHA256_Final(unsigned char *md, SHA256_CTX *c)`; the second
  component is the content of `md` after the call. -/
  Final : CTX → Bool × List Nat × CTX
  /-- The buffer `md` is an array of `SHA256_DIGEST_LENGTH` unsigned chars. -/
  Final_md : ∀ c, (Final c).2.1.length = SHA256_DIGEST_LENGTH ∧ ∀ b ∈ (Final c).2.1, b < 256

/-- A function from messages to digests: every value is
`SHA256_DIGEST_LENGTH` bytes. SHA-256 is one such function. -/
def IsDigestFunction (H : List Nat → List Nat) : Prop :=
  ∀ m, (H m).length = SHA256_DIGEST_LENGTH ∧ ∀ b ∈ H m, b < 256

/-- A library that never fails and computes the digest function `H` of the
concatenation of everything fed to the context since its initialisation. -/
def idealSHA256 (H : List Nat → List Nat) (hH : IsDigestFunction H) : SHA256 where
  CTX := List Nat
  uninit := []
  Init := fun _ => (true, [])
  Update := fun c data => (true, c ++ data)
  Final := fun c => (true, H c, [])
  Final_md := fun c => hH c

/-- What a call of the native function amounts to: it returns a `jboolean`, or
it performs a read outside an array, for which C++ defines no result. -/
inductive Outcome where
  | returned (b : Bool)
  | undefinedBehaviour
  deriving DecidableEq, Repr

/-! ## `GetJStringContent` -/

/-- Source lines 18-27. A null `jstring` (`none`) clears the result; otherwise
the result is assigned the C string obtained from the Java string. -/
def GetJStringContent (AStr : Option (List Char)) : List Char :=
  match AStr with
  | none => []
  | some s => s

/-! ## `strtol` in base 16 (C library) -/

/-- The C `isspace` in the "C" locale. -/
def isspace (c : Char) : Bool :=
  c = ' ' || c = '\t' || c = '\n' || c = '\x0b' || c = '\x0c' || c = '\r'

/-- Base-16 value of a digit character, `none` when it is not a hex digit. -/
def hexDigitValue (c : Char) : Option Nat :=
  if '0' ≤ c ∧ c ≤ '9' then some (c.toNat - '0'.toNat)
  else if 'a' ≤ c ∧ c ≤ 'f' then some (c.toNat - 'a'.toNat + 10)
  else if 'A' ≤ c ∧ c ≤ 'F' then some (c.toNat - 'A'.toNat + 10)
  else none

/-- The longest run of hex digits at the head of the string, accumulated
most-significant digit first; conversion stops at the first other character. -/
def strtolDigits (acc : Nat) : List Char → Nat
  | [] => acc
  | c :: cs =>
    match hexDigitValue c with
    | some d => strtolDigits (16 * acc + d) cs
    | none => acc

/-- The subject sequence left after an optional `0x`/`0X`, which is consumed
only when a hex digit follows it. -/
def strtolSkip0x : List Char → List Char
  | '0' :: x :: d :: t =>
    if (x = 'x' ∨ x = 'X') ∧ (hexDigitValue d).isSome then d :: t else '0' :: x :: d :: t
  | s => s

/-- Models `strtol(s, NULL, 16)`: leading white space is skipped, one optional
sign is read, an optional `0x` is skipped, then the longest run of hex digits
is converted; with no digit the value is 0. The clamp to the range of `long` is
left out: the callers pass at most two characters. -/
def strtol16 (s : List Char) : Int :=
  match s.dropWhile isspace with
  | '-' :: t => - (strtolDigits 0 (strtolSkip0x t) : Int)
  | '+' :: t => (strtolDigits 0 (strtolSkip0x t) : Int)
  | t => (strtolDigits 0 (strtolSkip0x t) : Int)

/-- The conversion `(char)(int) v`, read back as `unsigned char`: the value
modulo 256. -/
def toChar (v : Int) : Nat := (v % 256).toNat

/-! ## `hexStringToASCIIString` -/

/-- Source lines 29-37. The loop `for (i = 0; i < input_len; i += 2)` takes
`substr(i, 2)`, the next two characters or the single last one, converts it
with `strtol` in base 16 and pushes the resulting `char` onto the output. The
second argument is the output string on entry; the result is the output string
on exit. The `int` counters `input_len` and `i` are taken as unbounded, which
is exact for strings of fewer than 2^31 - 1 characters. -/
def hexStringToASCIIString : List Char → List Nat → List Nat
  | [], outputASCIIString => outputASCIIString
  | [a], outputASCIIString => outputASCIIString ++ [toChar (strtol16 [a])]
  | a :: b :: rest, outputASCIIString =>
    hexStringToASCIIString rest (outputASCIIString ++ [toChar (strtol16 [a, b])])

/-! ## `openSSLVerifyHashCommitment` -/

/-- The array behind `s.c_str()`: the `s.size()` characters and the
terminating NUL. -/
def c_str (s : List Nat) : List Nat := s ++ [0]

/-- A read of `n` bytes starting at the first element of `region`. -/
def readBytes (region : List Nat) (n : Nat) : Option (List Nat) :=
  if n ≤ region.length then some (region.take n) else none

/-- The conversion `%02x` of one `unsigned char`: two lowercase hex digits. -/
def sprintf02x (b : Nat) : List Char :=
  [Nat.digitChar (b % 256 / 16), Nat.digitChar (b % 256 % 16)]

/-- Source lines 109-114: the loop writing `md[0..32)` into `combined`; the
result is the C string held by `combined` afterwards. -/
def renderDigest (md : List Nat) : List Char :=
  (List.range SHA256_DIGEST_LENGTH).flatMap (fun i => sprintf02x (md.getD i 0))

/-- The C `toupper` in the "C" locale. -/
def toupper (c : Char) : Char := c.toUpper

/-- Source lines 116-135: compare `combined` with the commitment string, and
if they differ, uppercase `combined` in place and compare once more. -/
def compareCommitment (combined commitValue : List Char) : Bool :=
  if combined = commitValue then true
  else if combined.map toupper = commitValue then true
  else false

/-- Source lines 94-135, entered with the initialised context and with the
arrays behind `wit` and `m_rand`. -/
def finalHash (lib : SHA256) (context : lib.CTX) (wit m_rand : List Nat)
    (commitValue : List Char) : Outcome :=
  match readBytes wit SHA256_DIGEST_LENGTH with
  | none => Outcome.undefinedBehaviour
  | some witData =>
    let r1 := lib.Update context witData
    if !r1.1 then Outcome.returned false
    else
      match readBytes m_rand SHA256_DIGEST_LENGTH with
      | none => Outcome.undefinedBehaviour
      | some randData =>
        let r2 := lib.Update r1.2 randData
        if !r2.1 then Outcome.returned false
        else
          let r3 := lib.Final r2.2
          if !r3.1 then Outcome.returned false
          else Outcome.returned (compareCommitment (renderDigest r3.2.1) commitValue)

/-- Source lines 42-136. The three arguments are the Java strings, `none`
standing for a null reference. -/
def Java_com_vvote_verifierlibrary_utils_crypto_CryptoUtils_openSSLVerifyHashCommitment
    (lib : SHA256) (commitment witness random : Option (List Char)) : Outcome :=
  let commitValue := GetJStringContent commitment
  let witnessValue := GetJStringContent witness
  let randomValue := GetJStringContent random
  let witnessValueString := hexStringToASCIIString witnessValue []
  let randomValueString := hexStringToASCIIString randomValue []
  let wit := c_str witnessValueString
  let rand := c_str randomValueString
  let r0 := lib.Init lib.uninit
  if !r0.1 then Outcome.returned false
  else if randomValueString.length > 32 then
    let r1 := lib.Update r0.2 randomValueString
    if !r1.1 then Outcome.returned false
    else
      let r2 := lib.Final r1.2
      if !r2.1 then Outcome.returned false
      else
        let modifiedRand := r2.2.1
        let r3 := lib.Init r2.2.2
        if !r3.1 then Outcome.returned false
        else finalHash lib r3.2 wit modifiedRand commitValue
  else finalHash lib r0.2 wit rand commitValue

/-! ## Vocabulary of the specification -/

/-- The lowercase hex rendering `hex(B)` of a byte sequence: two digits per
byte, most significant first. -/
def hexEncode (bs : List Nat) : List Char := bs.flatMap sprintf02x

/-- The uppercase form of a string: every character mapped through `toupper`. -/
def uppercase (s : List Char) : List Char := s.map toupper

/-- A byte sequence: every element is below 256. -/
@[reducible] def IsBytes (bs : List Nat) : Prop := ∀ b ∈ bs, b < 256

/-- The decoded form of a hex string parameter of the native function. -/
def decoded (param : Option (List Char)) : List Nat :=
  hexStringToASCIIString (GetJStringContent param) []

/-- The reduced randomness of the specification: the raw randomness when it has
at most 32 bytes, its digest otherwise. -/
def reducedRandomness (H : List Nat → List Nat) (randomness : List Nat) : List Nat :=
  if randomness.length ≤ 32 then randomness else H randomness

/-- A concrete digest function for instantiating the theorems: 32 copies of the
byte sum of the message modulo 256. -/
def sumHash (m : List Nat) : List Nat := List.replicate 32 (m.sum % 256)

/-- The string is lowercase: `toupper` maps no other character onto one of
its characters, that is, it has no uppercase letter. -/
@[reducible] def IsLowercase (s : List Char) : Prop := ∀ ch ∈ s, ¬ ('A' ≤ ch ∧ ch ≤ 'Z')

/-- The string contains a lowercase hex letter `a`-`f`. -/
@[reducible] def HasLowerHexLetter (s : List Char) : Prop := ∃ ch ∈ s, 'a' ≤ ch ∧ ch ≤ 'f'

/-- The string contains an uppercase hex letter `A`-`F`. -/
@[reducible] def HasUpperHexLetter (s : List Char) : Prop := ∃ ch ∈ s, 'A' ≤ ch ∧ ch ≤ 'F'

/-- The two byte sequences have the same length and differ at exactly one
position. -/
@[reducible] def DifferInOneByte (x y : List Nat) : Prop :=
  x.length = y.length ∧ ((List.zip x y).filter (fun p => decide (p.1 ≠ p.2))).length = 1

/-- The hex string is malformed in the sense of the specification: its length
is odd or one of its characters is not a hex digit. -/
@[reducible] def Malformed (s : List Char) : Prop :=
  s.length % 2 = 1 ∨ ∃ ch ∈ s, hexDigitValue ch = none

/-- A library that computes the digest function `H` and whose `k`-th primitive
call, counted from 0 over the life of the context, reports failure; every
other call succeeds. The context carries the number of calls made so far. -/
def faultySHA256 (H : List Nat → List Nat) (hH : IsDigestFunction H) (k : Nat) : SHA256 where
  CTX := Nat × List Nat
  uninit := (0, [])
  Init := fun c => (decide (c.1 ≠ k), (c.1 + 1, []))
  Update := fun c data => (decide (c.1 ≠ k), (c.1 + 1, c.2 ++ data))
  Final := fun c => (decide (c.1 ≠ k), H c.2, (c.1 + 1, []))
  Final_md := fun c => hH c.2

/-- One of the SHA-256 primitive calls on the path of the native function
reports failure: the first `SHA256_Init`; when the decoded randomness is longer
than 32 bytes, the `SHA256_Update`, `SHA256_Final` and `SHA256_Init` of the
pre-hash; the two `SHA256_Update` calls and the `SHA256_Final` of the final
hash. Each call is taken in the state its predecessors leave on success. -/
def PrimitiveFailure (lib : SHA256) (witnessValueString randomValueString : List Nat) : Prop :=
  let init0 := lib.Init lib.uninit
  let update1 := lib.Update init0.2 randomValueString
  let final1 := lib.Final update1.2
  let init1 := lib.Init final1.2.2
  let hashed := 32 < randomValueString.length
  let context := if hashed then init1.2 else init0.2
  let m_rand := if hashed then final1.2.1 else c_str randomValueString
  let update2 := lib.Update context ((c_str witnessValueString).take 32)
  let update3 := lib.Update update2.2 (m_rand.take 32)
  let final2 := lib.Final update3.2
  init0.1 = false ∨ (hashed ∧ (update1.1 = false ∨ final1.1 = false ∨ init1.1 = false)) ∨
    update2.1 = false ∨ update3.1 = false ∨ final2.1 = false

instance (lib : SHA256) (witnessValueString randomValueString : List Nat) :
    Decidable (PrimitiveFailure lib witnessValueString randomValueString) := by
  unfold PrimitiveFailure
  infer_instance

/-- The C `tolower` in the "C" locale. -/
def tolower (c : Char) : Char := c.toLower

/-- The lowercase form of a string: every character mapped through `tolower`. -/
def lowercase (s : List Char) : List Char := s.map tolower

/-- The hex digit characters: the ten characters from `0`, the six from `a`
and the six from `A`. -/
def hexChars : List Char :=
  (List.range 10).map (fun i => Char.ofNat ('0'.toNat + i)) ++
    (List.range 6).map (fun i => Char.ofNat ('a'.toNat + i)) ++
    (List.range 6).map (fun i => Char.ofNat ('A'.toNat + i))

/-- The base-16 digit value `v` of the specification, taken as 0 on a character
that is not a hex digit. -/
def digitValue (c : Char) : Nat := (hexDigitValue c).getD 0

/-- Every character of the string is a hex digit, `0`-`9`, `a`-`f` or `A`-`F`. -/
@[reducible] def IsHexString (s : List Char) : Prop := ∀ ch ∈ s, (hexDigitValue ch).isSome

/-- The bytes of a string of hex digit pairs, by the specification: each pair
gives the byte `16 * v(first) + v(second)`. -/
def hexPairs : List Char → List Nat
  | a :: b :: rest => (16 * digitValue a + digitValue b) :: hexPairs rest
  | _ => []

/-- The message whose digest the native function compares with the commitment:
the first 32 decoded witness bytes followed by the reduced randomness. -/
def hashedInput (H : List Nat → List Nat) (witness random : Option (List Char)) : List Nat :=
  (decoded witness).take 32 ++ reducedRandomness H (decoded random)

/-! # Theorems -/

/-! ## Hex digits -/

theorem hexDigitValue_digitChar : ∀ n, n < 16 → hexDigitValue (Nat.digitChar n) = some n := by
  decide

theorem hexDigitValue_toupper_digitChar :
    ∀ n, n < 16 → hexDigitValue (toupper (Nat.digitChar n)) = some n := by
  decide

theorem isspace_digitChar : ∀ n, n < 16 → isspace (Nat.digitChar n) = false := by decide

theorem digitChar_ne_sign :
    ∀ n, n < 16 → Nat.digitChar n ≠ '-' ∧ Nat.digitChar n ≠ '+' := by decide

/-- The value `strtol` gives to two hex digits. -/
theorem strtol16_pair (a b : Char) (x y : Nat) (ha : hexDigitValue a = some x)
    (hb : hexDigitValue b = some y) (hs : isspace a = false) (hm : a ≠ '-') (hp : a ≠ '+') :
    strtol16 [a, b] = ((16 * x + y : Nat) : Int) := by
  unfold strtol16
  simp only [List.dropWhile, hs]
  split
  · rename_i t h; simp at h; exact absurd h.1 hm
  · rename_i t h; simp at h; exact absurd h.1 hp
  · simp [strtolSkip0x, strtolDigits, ha, hb]

theorem toChar_strtol16_sprintf02x (b : Nat) (hb : b < 256) :
    toChar (strtol16 (sprintf02x b)) = b := by
  have h1 : b / 16 < 16 := by omega
  have h2 : b % 16 < 16 := by omega
  unfold sprintf02x
  rw [Nat.mod_eq_of_lt hb]
  rw [strtol16_pair _ _ _ _ (hexDigitValue_digitChar _ h1) (hexDigitValue_digitChar _ h2)
    (isspace_digitChar _ h1) (digitChar_ne_sign _ h1).1 (digitChar_ne_sign _ h1).2]
  unfold toChar
  omega

/-! ## The decoder and the two renderings -/

theorem sumHash_isDigestFunction : IsDigestFunction sumHash := by
  intro m
  refine ⟨by simp [sumHash, SHA256_DIGEST_LENGTH], fun b hb => ?_⟩
  have := List.eq_of_mem_replicate hb
  omega

theorem hexStringToASCIIString_append_left (s : List Char) (out pre : List Nat) :
    hexStringToASCIIString s (pre ++ out) = pre ++ hexStringToASCIIString s out := by
  induction s, out using hexStringToASCIIString.induct generalizing pre with
  | case1 => simp [hexStringToASCIIString]
  | case2 a => simp [hexStringToASCIIString]
  | case3 a b rest out ih =>
    rw [hexStringToASCIIString, hexStringToASCIIString, List.append_assoc, ih]

theorem hexStringToASCIIString_append (s : List Char) (out : List Nat) :
    hexStringToASCIIString s out = out ++ hexStringToASCIIString s [] := by
  have h := hexStringToASCIIString_append_left s [] out
  simpa using h

theorem hexStringToASCIIString_length (s : List Char) (out : List Nat) :
    (hexStringToASCIIString s out).length = out.length + (s.length + 1) / 2 := by
  induction s, out using hexStringToASCIIString.induct with
  | case1 => simp [hexStringToASCIIString]
  | case2 a => simp [hexStringToASCIIString]
  | case3 a b rest out ih =>
    rw [hexStringToASCIIString, ih]
    simp
    omega

theorem hexEncode_cons (b : Nat) (bs : List Nat) :
    hexEncode (b :: bs) = sprintf02x b ++ hexEncode bs := by
  simp [hexEncode]

theorem hexStringToASCIIString_sprintf02x_append (b : Nat) (hb : b < 256) (t : List Char) :
    hexStringToASCIIString (sprintf02x b ++ t) [] = b :: hexStringToASCIIString t [] := by
  have h := toChar_strtol16_sprintf02x b hb
  simp only [sprintf02x] at h
  simp only [sprintf02x, List.cons_append, List.nil_append, hexStringToASCIIString]
  rw [hexStringToASCIIString_append, h]
  rfl

theorem hexStringToASCIIString_hexEncode (W : List Nat) (hW : IsBytes W) :
    hexStringToASCIIString (hexEncode W) [] = W := by
  induction W with
  | nil => simp [hexEncode, hexStringToASCIIString]
  | cons b bs ih =>
    have hb : b < 256 := hW b (List.mem_cons_self _ _)
    have hbs : IsBytes bs := fun x hx => hW x (List.mem_cons_of_mem _ hx)
    rw [hexEncode_cons, hexStringToASCIIString_sprintf02x_append b hb, ih hbs]

theorem hexEncode_length (W : List Nat) : (hexEncode W).length = 2 * W.length := by
  induction W with
  | nil => simp [hexEncode]
  | cons b bs ih =>
    rw [hexEncode_cons, List.length_append, ih]
    simp [sprintf02x]
    omega

theorem flatMap_range_getD (f : Nat → List Char) (md : List Nat) (n : Nat) (hn : n ≤ md.length) :
    (List.range n).flatMap (fun i => f (md.getD i 0)) = (md.take n).flatMap f := by
  induction n with
  | zero => simp
  | succ k ih =>
    have hk : k < md.length := hn
    rw [List.range_succ, List.flatMap_append, ih (by omega), List.take_succ,
      List.flatMap_append]
    simp [List.getD, List.getElem?_eq_getElem hk]

theorem renderDigest_eq_hexEncode (md : List Nat) (h : md.length = SHA256_DIGEST_LENGTH) :
    renderDigest md = hexEncode md := by
  unfold renderDigest hexEncode
  rw [flatMap_range_getD sprintf02x md _ (le_of_eq h.symm), ← h, List.take_length]

/-! ## The comparison and the run over a library that never fails -/

theorem compareCommitment_eq_true_iff (combined commitValue : List Char) :
    compareCommitment combined commitValue = true ↔
      commitValue = combined ∨ commitValue = uppercase combined := by
  unfold compareCommitment uppercase
  by_cases h1 : combined = commitValue
  · simp [h1]
  · by_cases h2 : combined.map toupper = commitValue
    · simp [h1, h2]
    · simp only [h1, h2, if_false, Bool.false_eq_true, false_iff, not_or]
      exact ⟨fun h => h1 h.symm, fun h => h2 h.symm⟩

theorem readBytes_c_str (s : List Nat) (h : SHA256_DIGEST_LENGTH ≤ s.length) :
    readBytes (c_str s) SHA256_DIGEST_LENGTH = some (s.take SHA256_DIGEST_LENGTH) := by
  unfold readBytes c_str
  rw [if_pos (by simp; omega), List.take_append_of_le_length h]

theorem readBytes_digest (md : List Nat) (h : md.length = SHA256_DIGEST_LENGTH) :
    readBytes md SHA256_DIGEST_LENGTH = some md := by
  unfold readBytes
  rw [if_pos (by omega), ← h, List.take_length]

/-- The native function over a library that never fails, on inputs that decode
to at least 32 bytes each. -/
theorem verify_ideal (H : List Nat → List Nat) (hH : IsDigestFunction H)
    (commitment witness random : Option (List Char))
    (hw : 32 ≤ (decoded witness).length) (hr : 32 ≤ (decoded random).length) :
    Java_com_vvote_verifierlibrary_utils_crypto_CryptoUtils_openSSLVerifyHashCommitment
        (idealSHA256 H hH) commitment witness random =
      Outcome.returned (compareCommitment
        (hexEncode (H ((decoded witness).take 32 ++ reducedRandomness H (decoded random))))
        (GetJStringContent commitment)) := by
  unfold Java_com_vvote_verifierlibrary_utils_crypto_CryptoUtils_openSSLVerifyHashCommitment
  simp only [decoded] at hw hr
  simp only [idealSHA256, finalHash, decoded, reducedRandomness, Bool.not_true,
    Bool.false_eq_true, if_false, List.nil_append]
  have hw2 := readBytes_c_str _ hw
  by_cases hlen : (hexStringToASCIIString (GetJStringContent random) []).length > 32
  · rw [if_pos hlen, if_neg (by omega), hw2, readBytes_digest _ (hH _).1]
    simp only [renderDigest_eq_hexEncode _ (hH _).1]
    rfl
  · have hr2 := readBytes_c_str _ hr
    have heq : (hexStringToASCIIString (GetJStringContent random) []).length = 32 := by omega
    rw [if_neg hlen, if_pos (by omega), hw2, hr2]
    simp only [renderDigest_eq_hexEncode _ (hH _).1]
    have : List.take SHA256_DIGEST_LENGTH (hexStringToASCIIString (GetJStringContent random) [])
        = hexStringToASCIIString (GetJStringContent random) [] := by
      rw [show SHA256_DIGEST_LENGTH = 32 from rfl, ← heq, List.take_length]
    rw [this]
    rfl


/-! ## The run over an arbitrary library -/

/-- Every character of the rendering is the lowercase digit of a value below 16. -/
theorem mem_renderDigest (md : List Nat) (ch : Char) (h : ch ∈ renderDigest md) :
    ∃ n, n < 16 ∧ ch = Nat.digitChar n := by
  unfold renderDigest sprintf02x at h
  simp only [List.mem_flatMap, List.mem_cons, List.mem_singleton, List.not_mem_nil,
    or_false] at h
  obtain ⟨i, _, h | h⟩ := h
  · exact ⟨_, by omega, h⟩
  · exact ⟨_, by omega, h⟩

theorem toupper_toupper_digitChar :
    ∀ n, n < 16 → toupper (toupper (Nat.digitChar n)) = toupper (Nat.digitChar n) := by
  decide

theorem digitChar_not_upper :
    ∀ n, n < 16 → ¬ ('A' ≤ Nat.digitChar n ∧ Nat.digitChar n ≤ 'F') := by decide

theorem toupper_digitChar_not_lower :
    ∀ n, n < 16 → ¬ ('a' ≤ toupper (Nat.digitChar n) ∧ toupper (Nat.digitChar n) ≤ 'f') := by
  decide

theorem uppercase_uppercase_renderDigest (md : List Nat) :
    uppercase (uppercase (renderDigest md)) = uppercase (renderDigest md) := by
  unfold uppercase
  rw [List.map_map]
  apply List.map_congr_left
  intro ch hch
  obtain ⟨n, hn, rfl⟩ := mem_renderDigest md ch hch
  exact toupper_toupper_digitChar n hn

theorem finalHash_cases (lib : SHA256) (context : lib.CTX) (wit m_rand : List Nat) :
    (∀ c, finalHash lib context wit m_rand c = Outcome.returned false) ∨
    (∀ c, finalHash lib context wit m_rand c = Outcome.undefinedBehaviour) ∨
    (∃ md, ∀ c, finalHash lib context wit m_rand c =
      Outcome.returned (compareCommitment (renderDigest md) c)) := by
  unfold finalHash
  cases h1 : readBytes wit SHA256_DIGEST_LENGTH with
  | none => exact Or.inr (Or.inl (fun _ => rfl))
  | some witData =>
    cases h2 : (lib.Update context witData).1 with
    | false => exact Or.inl (fun _ => by simp [h2])
    | true =>
      cases h3 : readBytes m_rand SHA256_DIGEST_LENGTH with
      | none => exact Or.inr (Or.inl (fun _ => by simp [h2]))
      | some randData =>
        cases h4 : (lib.Update (lib.Update context witData).2 randData).1 with
        | false => exact Or.inl (fun _ => by simp [h2, h4])
        | true =>
          cases h5 : (lib.Final (lib.Update (lib.Update context witData).2 randData).2).1 with
          | false => exact Or.inl (fun _ => by simp [h2, h4, h5])
          | true =>
            exact Or.inr (Or.inr ⟨(lib.Final (lib.Update (lib.Update context witData).2
              randData).2).2.1, fun _ => by simp [h2, h4, h5]⟩)

/-- How the result depends on the commitment: for a given library, witness and
randomness, the call returns false whatever the commitment, or is undefined
whatever the commitment, or compares the commitment with the rendering of one
digest. -/
theorem verify_cases (lib : SHA256) (witness random : Option (List Char)) :
    (∀ commitment,
      Java_com_vvote_verifierlibrary_utils_crypto_CryptoUtils_openSSLVerifyHashCommitment
        lib commitment witness random = Outcome.returned false) ∨
    (∀ commitment,
      Java_com_vvote_verifierlibrary_utils_crypto_CryptoUtils_openSSLVerifyHashCommitment
        lib commitment witness random = Outcome.undefinedBehaviour) ∨
    (∃ md, ∀ commitment,
      Java_com_vvote_verifierlibrary_utils_crypto_CryptoUtils_openSSLVerifyHashCommitment
        lib commitment witness random =
      Outcome.returned (compareCommitment (renderDigest md) (GetJStringContent commitment))) := by
  unfold Java_com_vvote_verifierlibrary_utils_crypto_CryptoUtils_openSSLVerifyHashCommitment
  cases h0 : (lib.Init lib.uninit).1 with
  | false => exact Or.inl (fun _ => by simp [h0])
  | true =>
    by_cases hlen : (hexStringToASCIIString (GetJStringContent random) []).length > 32
    · cases h1 : (lib.Update (lib.Init lib.uninit).2
          (hexStringToASCIIString (GetJStringContent random) [])).1 with
      | false => exact Or.inl (fun _ => by simp [h0, hlen, h1])
      | true =>
        cases h2 : (lib.Final (lib.Update (lib.Init lib.uninit).2
            (hexStringToASCIIString (GetJStringContent random) [])).2).1 with
        | false => exact Or.inl (fun _ => by simp [h0, hlen, h1, h2])
        | true =>
          cases h3 : (lib.Init (lib.Final (lib.Update (lib.Init lib.uninit).2
              (hexStringToASCIIString (GetJStringContent random) [])).2).2.2).1 with
          | false => exact Or.inl (fun _ => by simp [h0, hlen, h1, h2, h3])
          | true =>
            rcases finalHash_cases lib (lib.Init (lib.Final (lib.Update (lib.Init lib.uninit).2
              (hexStringToASCIIString (GetJStringContent random) [])).2).2.2).2
              (c_str (hexStringToASCIIString (GetJStringContent witness) []))
              (lib.Final (lib.Update (lib.Init lib.uninit).2
                (hexStringToASCIIString (GetJStringContent random) [])).2).2.1 with h | h | ⟨md, h⟩
            · exact Or.inl (fun _ => by simp [h0, hlen, h1, h2, h3, h])
            · exact Or.inr (Or.inl (fun _ => by simp [h0, hlen, h1, h2, h3, h]))
            · exact Or.inr (Or.inr ⟨md, fun _ => by simp [h0, hlen, h1, h2, h3, h]⟩)
    · rcases finalHash_cases lib (lib.Init lib.uninit).2
        (c_str (hexStringToASCIIString (GetJStringContent witness) []))
        (c_str (hexStringToASCIIString (GetJStringContent random) [])) with h | h | ⟨md, h⟩
      · exact Or.inl (fun _ => by simp [h0, hlen, h])
      · exact Or.inr (Or.inl (fun _ => by simp [h0, hlen, h]))
      · exact Or.inr (Or.inr ⟨md, fun _ => by simp [h0, hlen, h]⟩)

theorem readBytes_of_le (region : List Nat) (n : Nat) (h : n ≤ region.length) :
    readBytes region n = some (region.take n) := by
  unfold readBytes
  rw [if_pos h]

theorem finalHash_returns (lib : SHA256) (context : lib.CTX) (wit m_rand : List Nat)
    (c : List Char) (hw : SHA256_DIGEST_LENGTH ≤ wit.length)
    (hr : SHA256_DIGEST_LENGTH ≤ m_rand.length) :
    ∃ b, finalHash lib context wit m_rand c = Outcome.returned b := by
  unfold finalHash
  rw [readBytes_of_le _ _ hw, readBytes_of_le _ _ hr]
  simp only []
  split_ifs <;> exact ⟨_, rfl⟩

/-- On inputs that decode to at least 32 bytes each, the call returns a
boolean, whatever the library does. -/
theorem verify_returns (lib : SHA256) (commitment witness random : Option (List Char))
    (hw : 32 ≤ (decoded witness).length) (hr : 32 ≤ (decoded random).length) :
    ∃ b, Java_com_vvote_verifierlibrary_utils_crypto_CryptoUtils_openSSLVerifyHashCommitment
      lib commitment witness random = Outcome.returned b := by
  unfold Java_com_vvote_verifierlibrary_utils_crypto_CryptoUtils_openSSLVerifyHashCommitment
  simp only [decoded] at hw hr
  have hw2 : SHA256_DIGEST_LENGTH ≤
      (c_str (hexStringToASCIIString (GetJStringContent witness) [])).length := by
    simp only [c_str, List.length_append, List.length_singleton, SHA256_DIGEST_LENGTH]; omega
  have hr2 : SHA256_DIGEST_LENGTH ≤
      (c_str (hexStringToASCIIString (GetJStringContent random) [])).length := by
    simp only [c_str, List.length_append, List.length_singleton, SHA256_DIGEST_LENGTH]; omega
  simp only []
  split_ifs
  · exact ⟨_, rfl⟩
  · exact ⟨_, rfl⟩
  · exact ⟨_, rfl⟩
  · exact ⟨_, rfl⟩
  · exact finalHash_returns lib _ _ _ _ hw2 (le_of_eq (lib.Final_md _).1.symm)
  · exact finalHash_returns lib _ _ _ _ hw2 hr2

theorem not_compareCommitment_of_mixed (md : List Nat) (c : List Char)
    (hl : HasLowerHexLetter c) (hu : HasUpperHexLetter c) :
    compareCommitment (renderDigest md) c = false := by
  cases h : compareCommitment (renderDigest md) c with
  | false => rfl
  | true =>
    exfalso
    rcases (compareCommitment_eq_true_iff _ _).1 h with h | h
    · obtain ⟨ch, hch, hrange⟩ := hu
      rw [h] at hch
      obtain ⟨n, hn, rfl⟩ := mem_renderDigest md ch hch
      exact digitChar_not_upper n hn hrange
    · obtain ⟨ch, hch, hrange⟩ := hl
      rw [h, uppercase, List.mem_map] at hch
      obtain ⟨ch0, hch0, rfl⟩ := hch
      obtain ⟨n, hn, rfl⟩ := mem_renderDigest md ch0 hch0
      exact toupper_digitChar_not_lower n hn hrange

/-- Uppercasing an accepted commitment gives an accepted commitment. -/
theorem verify_uppercase (lib : SHA256) (c : List Char) (witness random : Option (List Char))
    (h : Java_com_vvote_verifierlibrary_utils_crypto_CryptoUtils_openSSLVerifyHashCommitment
      lib (some c) witness random = Outcome.returned true) :
    Java_com_vvote_verifierlibrary_utils_crypto_CryptoUtils_openSSLVerifyHashCommitment
      lib (some (uppercase c)) witness random = Outcome.returned true := by
  rcases verify_cases lib witness random with hc | hc | ⟨md, hc⟩
  · rw [hc] at h; exact absurd h (by decide)
  · rw [hc] at h; exact absurd h (by decide)
  · rw [hc] at h ⊢
    have h2 : compareCommitment (renderDigest md) c = true := by injection h
    simp only [GetJStringContent] at h2 ⊢
    have h3 : compareCommitment (renderDigest md) (uppercase c) = true := by
      rw [compareCommitment_eq_true_iff] at h2 ⊢
      right
      rcases h2 with h2 | h2
      · rw [h2]
      · rw [h2, uppercase_uppercase_renderDigest]
    rw [h3]

theorem isspace_toupper_digitChar :
    ∀ n, n < 16 → isspace (toupper (Nat.digitChar n)) = false := by decide

theorem toupper_digitChar_ne_sign :
    ∀ n, n < 16 → toupper (Nat.digitChar n) ≠ '-' ∧ toupper (Nat.digitChar n) ≠ '+' := by
  decide

theorem toChar_strtol16_uppercase_sprintf02x (b : Nat) (hb : b < 256) :
    toChar (strtol16 (uppercase (sprintf02x b))) = b := by
  have h1 : b / 16 < 16 := by omega
  have h2 : b % 16 < 16 := by omega
  unfold sprintf02x uppercase
  rw [Nat.mod_eq_of_lt hb]
  simp only [List.map_cons, List.map_nil]
  rw [strtol16_pair _ _ _ _ (hexDigitValue_toupper_digitChar _ h1)
    (hexDigitValue_toupper_digitChar _ h2) (isspace_toupper_digitChar _ h1)
    (toupper_digitChar_ne_sign _ h1).1 (toupper_digitChar_ne_sign _ h1).2]
  unfold toChar
  omega

theorem hexStringToASCIIString_uppercase_hexEncode (W : List Nat) (hW : IsBytes W) :
    hexStringToASCIIString (uppercase (hexEncode W)) [] = W := by
  induction W with
  | nil => simp [hexEncode, uppercase, hexStringToASCIIString]
  | cons b bs ih =>
    have hb : b < 256 := hW b (List.mem_cons_self _ _)
    have hbs : IsBytes bs := fun x hx => hW x (List.mem_cons_of_mem _ hx)
    have h := toChar_strtol16_uppercase_sprintf02x b hb
    simp only [sprintf02x, uppercase, List.map_cons, List.map_nil] at h
    have ih2 := ih hbs
    rw [hexEncode_cons]
    simp only [uppercase, List.map_append] at ih2 ⊢
    simp only [sprintf02x, List.map_cons, List.map_nil, List.cons_append, List.nil_append,
      hexStringToASCIIString]
    rw [hexStringToASCIIString_append, h]
    show [b] ++ hexStringToASCIIString (List.map toupper (hexEncode bs)) [] = b :: bs
    rw [ih2]
    rfl

/-- A commitment string accepted against two digests forces them to be equal:
decoding the string gives back either digest. -/
theorem digest_eq_of_compareCommitment (d d' : List Nat) (hd : IsBytes d) (hd' : IsBytes d')
    (c : List Char) (h : compareCommitment (hexEncode d) c = true)
    (h' : compareCommitment (hexEncode d') c = true) : d = d' := by
  have e : hexStringToASCIIString c [] = d := by
    rcases (compareCommitment_eq_true_iff _ _).1 h with h | h
    · rw [h, hexStringToASCIIString_hexEncode d hd]
    · rw [h, hexStringToASCIIString_uppercase_hexEncode d hd]
  have e' : hexStringToASCIIString c [] = d' := by
    rcases (compareCommitment_eq_true_iff _ _).1 h' with h | h
    · rw [h, hexStringToASCIIString_hexEncode d' hd']
    · rw [h, hexStringToASCIIString_uppercase_hexEncode d' hd']
  rw [← e, ← e']

theorem finalHash_of_failure (lib : SHA256) (context : lib.CTX) (wit m_rand : List Nat)
    (c : List Char) (hw : SHA256_DIGEST_LENGTH ≤ wit.length)
    (hr : SHA256_DIGEST_LENGTH ≤ m_rand.length)
    (hf : (lib.Update context (wit.take 32)).1 = false ∨
      (lib.Update (lib.Update context (wit.take 32)).2 (m_rand.take 32)).1 = false ∨
      (lib.Final (lib.Update (lib.Update context (wit.take 32)).2 (m_rand.take 32)).2).1
        = false) :
    finalHash lib context wit m_rand c = Outcome.returned false := by
  unfold finalHash
  rw [readBytes_of_le _ _ hw, readBytes_of_le _ _ hr]
  simp only [SHA256_DIGEST_LENGTH]
  cases h1 : (lib.Update context (wit.take 32)).1 with
  | false => simp
  | true =>
    cases h2 : (lib.Update (lib.Update context (wit.take 32)).2 (m_rand.take 32)).1 with
    | false => simp
    | true =>
      cases h3 : (lib.Final (lib.Update (lib.Update context (wit.take 32)).2
          (m_rand.take 32)).2).1 with
      | false => simp
      | true => simp [h1, h2, h3] at hf

/-- The function returns false as soon as a primitive call on its path reports
failure. -/
theorem verify_of_primitiveFailure (lib : SHA256) (commitment witness random : Option (List Char))
    (hw : 32 ≤ (decoded witness).length) (hr : 32 ≤ (decoded random).length)
    (hf : PrimitiveFailure lib (decoded witness) (decoded random)) :
    Java_com_vvote_verifierlibrary_utils_crypto_CryptoUtils_openSSLVerifyHashCommitment
      lib commitment witness random = Outcome.returned false := by
  unfold Java_com_vvote_verifierlibrary_utils_crypto_CryptoUtils_openSSLVerifyHashCommitment
  unfold PrimitiveFailure at hf
  simp only [decoded] at hw hr hf
  have hw2 : SHA256_DIGEST_LENGTH ≤
      (c_str (hexStringToASCIIString (GetJStringContent witness) [])).length := by
    simp only [c_str, List.length_append, List.length_singleton, SHA256_DIGEST_LENGTH]; omega
  have hr2 : SHA256_DIGEST_LENGTH ≤
      (c_str (hexStringToASCIIString (GetJStringContent random) [])).length := by
    simp only [c_str, List.length_append, List.length_singleton, SHA256_DIGEST_LENGTH]; omega
  cases h0 : (lib.Init lib.uninit).1 with
  | false => simp [h0]
  | true =>
    by_cases hlen : (hexStringToASCIIString (GetJStringContent random) []).length > 32
    · have hlen2 : 32 < (hexStringToASCIIString (GetJStringContent random) []).length := hlen
      simp only [h0, hlen2, if_true, true_and, Bool.true_eq_false, false_or] at hf
      cases h1 : (lib.Update (lib.Init lib.uninit).2
          (hexStringToASCIIString (GetJStringContent random) [])).1 with
      | false => simp [h0, hlen, h1]
      | true =>
        cases h2 : (lib.Final (lib.Update (lib.Init lib.uninit).2
            (hexStringToASCIIString (GetJStringContent random) [])).2).1 with
        | false => simp [h0, hlen, h1, h2]
        | true =>
          cases h3 : (lib.Init (lib.Final (lib.Update (lib.Init lib.uninit).2
              (hexStringToASCIIString (GetJStringContent random) [])).2).2.2).1 with
          | false => simp [h0, hlen, h1, h2, h3]
          | true =>
            simp only [h1, h2, h3, Bool.true_eq_false, false_or] at hf
            simp only [h0, h1, h2, h3, hlen, if_true, Bool.not_true, Bool.false_eq_true, if_false]
            exact finalHash_of_failure lib _ _ _ _ hw2
              (le_of_eq (lib.Final_md _).1.symm) hf
    · have hlen2 : ¬ 32 < (hexStringToASCIIString (GetJStringContent random) []).length := hlen
      simp only [h0, hlen2, if_false, false_and, Bool.true_eq_false, false_or] at hf
      simp only [h0, hlen, if_false, Bool.not_true, Bool.false_eq_true]
      exact finalHash_of_failure lib _ _ _ _ hw2 hr2 hf

/-! ## Reads of 32 bytes from shorter strings -/

theorem readBytes_none (region : List Nat) (n : Nat) (h : region.length < n) :
    readBytes region n = none := by
  unfold readBytes
  rw [if_neg (by omega)]

/-- Over a library that never fails, with inputs that decode to at least 31
bytes each: a 32-byte read of a 31-byte string takes the terminating NUL as
its last byte. -/
theorem verify_ideal_c_str (H : List Nat → List Nat) (hH : IsDigestFunction H)
    (commitment witness random : Option (List Char))
    (hw : 31 ≤ (decoded witness).length) (hr : 31 ≤ (decoded random).length) :
    Java_com_vvote_verifierlibrary_utils_crypto_CryptoUtils_openSSLVerifyHashCommitment
        (idealSHA256 H hH) commitment witness random =
      Outcome.returned (compareCommitment
        (hexEncode (H ((c_str (decoded witness)).take 32 ++
          (if 32 < (decoded random).length then H (decoded random)
            else (c_str (decoded random)).take 32))))
        (GetJStringContent commitment)) := by
  unfold Java_com_vvote_verifierlibrary_utils_crypto_CryptoUtils_openSSLVerifyHashCommitment
  simp only [decoded] at hw hr
  have hw2 : SHA256_DIGEST_LENGTH ≤
      (c_str (hexStringToASCIIString (GetJStringContent witness) [])).length := by
    simp only [c_str, List.length_append, List.length_singleton, SHA256_DIGEST_LENGTH]; omega
  have hr2 : SHA256_DIGEST_LENGTH ≤
      (c_str (hexStringToASCIIString (GetJStringContent random) [])).length := by
    simp only [c_str, List.length_append, List.length_singleton, SHA256_DIGEST_LENGTH]; omega
  simp only [idealSHA256, finalHash, decoded, Bool.not_true, Bool.false_eq_true, if_false,
    List.nil_append]
  by_cases hlen : (hexStringToASCIIString (GetJStringContent random) []).length > 32
  · have hlen2 : 32 < (hexStringToASCIIString (GetJStringContent random) []).length := hlen
    rw [if_pos hlen, if_pos hlen2, readBytes_of_le _ _ hw2, readBytes_digest _ (hH _).1]
    simp only [renderDigest_eq_hexEncode _ (hH _).1]
    rfl
  · have hlen2 : ¬ 32 < (hexStringToASCIIString (GetJStringContent random) []).length := hlen
    rw [if_neg hlen, if_neg hlen2, readBytes_of_le _ _ hw2, readBytes_of_le _ _ hr2]
    simp only [renderDigest_eq_hexEncode _ (hH _).1]
    rfl

/-- Over a library that never fails, a witness that decodes to fewer than 31
bytes makes the 32-byte read leave the string's array. -/
theorem verify_ideal_short_witness (H : List Nat → List Nat) (hH : IsDigestFunction H)
    (commitment witness random : Option (List Char))
    (hw : (decoded witness).length < 31) :
    Java_com_vvote_verifierlibrary_utils_crypto_CryptoUtils_openSSLVerifyHashCommitment
        (idealSHA256 H hH) commitment witness random = Outcome.undefinedBehaviour := by
  unfold Java_com_vvote_verifierlibrary_utils_crypto_CryptoUtils_openSSLVerifyHashCommitment
  simp only [decoded] at hw
  have hw2 : (c_str (hexStringToASCIIString (GetJStringContent witness) [])).length <
      SHA256_DIGEST_LENGTH := by
    simp only [c_str, List.length_append, List.length_singleton, SHA256_DIGEST_LENGTH]; omega
  simp only [idealSHA256, finalHash, Bool.not_true, Bool.false_eq_true, if_false,
    readBytes_none _ _ hw2]
  split_ifs <;> rfl

/-- Over a library that never fails, randomness that decodes to fewer than 31
bytes makes a 32-byte read leave a string's array. -/
theorem verify_ideal_short_random (H : List Nat → List Nat) (hH : IsDigestFunction H)
    (commitment witness random : Option (List Char))
    (hr : (decoded random).length < 31) :
    Java_com_vvote_verifierlibrary_utils_crypto_CryptoUtils_openSSLVerifyHashCommitment
        (idealSHA256 H hH) commitment witness random = Outcome.undefinedBehaviour := by
  unfold Java_com_vvote_verifierlibrary_utils_crypto_CryptoUtils_openSSLVerifyHashCommitment
  simp only [decoded] at hr
  have hr2 : (c_str (hexStringToASCIIString (GetJStringContent random) [])).length <
      SHA256_DIGEST_LENGTH := by
    simp only [c_str, List.length_append, List.length_singleton, SHA256_DIGEST_LENGTH]; omega
  have hlen : ¬ (hexStringToASCIIString (GetJStringContent random) []).length > 32 := by omega
  simp only [idealSHA256, finalHash, Bool.not_true, Bool.false_eq_true, if_false, hlen,
    readBytes_none _ _ hr2]
  cases readBytes (c_str (hexStringToASCIIString (GetJStringContent witness) []))
    SHA256_DIGEST_LENGTH <;> rfl

/-! ## Claims -/

/-- C1 (completeness, unhashed randomness): for every digest function `H`, every
32-byte witness `W` and every randomness `R` of exactly 32 bytes, the native
function called with the lowercase hex rendering of `H (W ++ R)`, with `hex(W)`
and with `hex(R)` returns true; that rendering has 64 characters. -/
theorem C1_completeness_unhashed (H : List Nat → List Nat) (hH : IsDigestFunction H)
    (W R : List Nat) (hW : W.length = 32) (hWb : IsBytes W) (hR : R.length = 32)
    (hRb : IsBytes R) :
    Java_com_vvote_verifierlibrary_utils_crypto_CryptoUtils_openSSLVerifyHashCommitment
        (idealSHA256 H hH) (some (hexEncode (H (W ++ R)))) (some (hexEncode W))
        (some (hexEncode R)) = Outcome.returned true ∧
      (hexEncode (H (W ++ R))).length = 64 := by
  have dW : decoded (some (hexEncode W)) = W := hexStringToASCIIString_hexEncode W hWb
  have dR : decoded (some (hexEncode R)) = R := hexStringToASCIIString_hexEncode R hRb
  refine ⟨?_, by rw [hexEncode_length, (hH _).1]; rfl⟩
  rw [verify_ideal H hH _ _ _ (by rw [dW, hW]) (by rw [dR, hR]), dW, dR]
  have hT : W.take 32 = W := by rw [← hW, List.take_length]
  rw [hT, reducedRandomness, if_pos (by omega)]
  simp [compareCommitment, GetJStringContent]

/-- C1 at the scenario of the specification: `W` is 32 bytes of `0x00` and `R`
is 32 bytes of `0x11`. -/
theorem C1_completeness_unhashed_witness :
    Java_com_vvote_verifierlibrary_utils_crypto_CryptoUtils_openSSLVerifyHashCommitment
        (idealSHA256 sumHash sumHash_isDigestFunction)
        (some (hexEncode (sumHash (List.replicate 32 0 ++ List.replicate 32 17))))
        (some (hexEncode (List.replicate 32 0)))
        (some (hexEncode (List.replicate 32 17))) = Outcome.returned true ∧
      (hexEncode (sumHash (List.replicate 32 0 ++ List.replicate 32 17))).length = 64 :=
  C1_completeness_unhashed sumHash sumHash_isDigestFunction (List.replicate 32 0)
    (List.replicate 32 17) (by decide) (by decide) (by decide) (by decide)

/-- C2 (completeness, pre-hashed randomness): for every digest function `H`,
every 32-byte witness `W` and every randomness `R` of more than 32 bytes, the
native function called with the lowercase hex rendering of `H (W ++ H R)`, with
`hex(W)` and with `hex(R)` returns true; the inner digest is taken over all
of `R`. -/
theorem C2_completeness_prehashed (H : List Nat → List Nat) (hH : IsDigestFunction H)
    (W R : List Nat) (hW : W.length = 32) (hWb : IsBytes W) (hR : 32 < R.length)
    (hRb : IsBytes R) :
    Java_com_vvote_verifierlibrary_utils_crypto_CryptoUtils_openSSLVerifyHashCommitment
        (idealSHA256 H hH) (some (hexEncode (H (W ++ H R)))) (some (hexEncode W))
        (some (hexEncode R)) = Outcome.returned true := by
  have dW : decoded (some (hexEncode W)) = W := hexStringToASCIIString_hexEncode W hWb
  have dR : decoded (some (hexEncode R)) = R := hexStringToASCIIString_hexEncode R hRb
  rw [verify_ideal H hH _ _ _ (by rw [dW, hW]) (by rw [dR]; omega), dW, dR]
  have hT : W.take 32 = W := by rw [← hW, List.take_length]
  rw [hT, reducedRandomness, if_neg (by omega)]
  simp [compareCommitment, GetJStringContent]

/-- C2 at the scenario of the specification: `R` is 64 bytes of `0xAA`. -/
theorem C2_completeness_prehashed_witness :
    Java_com_vvote_verifierlibrary_utils_crypto_CryptoUtils_openSSLVerifyHashCommitment
        (idealSHA256 sumHash sumHash_isDigestFunction)
        (some (hexEncode (sumHash (List.replicate 32 0 ++ sumHash (List.replicate 64 170)))))
        (some (hexEncode (List.replicate 32 0)))
        (some (hexEncode (List.replicate 64 170))) = Outcome.returned true :=
  C2_completeness_prehashed sumHash sumHash_isDigestFunction (List.replicate 32 0)
    (List.replicate 64 170) (by decide) (by decide) (by decide) (by decide)

/-- C3 (exact characterisation): for every digest function `H`, every
commitment string and every witness and randomness input whose decoded forms
have at least 32 bytes each, with `d` the digest of the first 32 witness bytes
followed by the reduced randomness, the native function returns true if and
only if the commitment equals the 64-character lowercase hex rendering of `d`
or that rendering with every character uppercased, and returns false
otherwise. -/
theorem C3_exact_characterisation (H : List Nat → List Nat) (hH : IsDigestFunction H)
    (commitment witness random : Option (List Char))
    (hw : 32 ≤ (decoded witness).length) (hr : 32 ≤ (decoded random).length) :
    let d := H ((decoded witness).take 32 ++ reducedRandomness H (decoded random))
    let c := GetJStringContent commitment
    let result :=
      Java_com_vvote_verifierlibrary_utils_crypto_CryptoUtils_openSSLVerifyHashCommitment
        (idealSHA256 H hH) commitment witness random
    (hexEncode d).length = 64 ∧
      (result = Outcome.returned true ↔ (c = hexEncode d ∨ c = uppercase (hexEncode d))) ∧
      (¬ (c = hexEncode d ∨ c = uppercase (hexEncode d)) → result = Outcome.returned false) := by
  intro d c result
  have hres : result = Outcome.returned (compareCommitment (hexEncode d) c) :=
    verify_ideal H hH commitment witness random hw hr
  have hiff := compareCommitment_eq_true_iff (hexEncode d) c
  refine ⟨by rw [hexEncode_length, (hH _).1]; rfl, ?_, ?_⟩
  · rw [hres]
    constructor
    · intro h
      exact hiff.1 (by injection h)
    · intro h
      rw [hiff.2 h]
  · intro h
    rw [hres]
    cases hc : compareCommitment (hexEncode d) c
    · rfl
    · exact absurd (hiff.1 hc) h

/-- C3 at a 33-byte witness `ab 00 .. 00 ff`, 33 bytes of randomness and the
commitment `ABAB..AB`, which is the uppercased rendering of the digest. -/
theorem C3_exact_characterisation_witness :
    let commitment := some (List.replicate 32 ['A', 'B']).flatten
    let witness := some (hexEncode ([171] ++ List.replicate 31 0 ++ [255]))
    let random := some (hexEncode ([8] ++ List.replicate 32 0))
    let d := sumHash ((decoded witness).take 32 ++ reducedRandomness sumHash (decoded random))
    let c := GetJStringContent commitment
    let result :=
      Java_com_vvote_verifierlibrary_utils_crypto_CryptoUtils_openSSLVerifyHashCommitment
        (idealSHA256 sumHash sumHash_isDigestFunction) commitment witness random
    (hexEncode d).length = 64 ∧
      (result = Outcome.returned true ↔ (c = hexEncode d ∨ c = uppercase (hexEncode d))) ∧
      (¬ (c = hexEncode d ∨ c = uppercase (hexEncode d)) → result = Outcome.returned false) :=
  C3_exact_characterisation sumHash sumHash_isDigestFunction
    (some (List.replicate 32 ['A', 'B']).flatten)
    (some (hexEncode ([171] ++ List.replicate 31 0 ++ [255])))
    (some (hexEncode ([8] ++ List.replicate 32 0))) (by decide) (by decide)

/-- C4 (case insensitivity): for every library, every lowercase commitment
string `c` and every witness and randomness, if the native function returns
true on `c` then it returns true on the uppercase form of `c`. The proof does
not use that `c` is lowercase. -/
theorem C4_case_insensitivity (lib : SHA256) (c : List Char)
    (witness random : Option (List Char)) (hc : IsLowercase c)
    (h : Java_com_vvote_verifierlibrary_utils_crypto_CryptoUtils_openSSLVerifyHashCommitment
      lib (some c) witness random = Outcome.returned true) :
    Java_com_vvote_verifierlibrary_utils_crypto_CryptoUtils_openSSLVerifyHashCommitment
      lib (some (uppercase c)) witness random = Outcome.returned true :=
  have _ := hc
  verify_uppercase lib c witness random h

/-- C4 at the commitment `abab..ab`, accepted for the witness `ab 00 .. 00` and
32 zero bytes of randomness. -/
theorem C4_case_insensitivity_witness :
    Java_com_vvote_verifierlibrary_utils_crypto_CryptoUtils_openSSLVerifyHashCommitment
      (idealSHA256 sumHash sumHash_isDigestFunction)
      (some (uppercase (hexEncode (List.replicate 32 171))))
      (some (hexEncode ([171] ++ List.replicate 31 0)))
      (some (hexEncode (List.replicate 32 0))) = Outcome.returned true :=
  C4_case_insensitivity (idealSHA256 sumHash sumHash_isDigestFunction)
    (hexEncode (List.replicate 32 171)) (some (hexEncode ([171] ++ List.replicate 31 0)))
    (some (hexEncode (List.replicate 32 0))) (by decide) (by decide)

/-- C5 (mixed case is not tolerated): for every library, every commitment
string that contains a lowercase letter `a`-`f` and an uppercase letter
`A`-`F`, and every witness and randomness that decode to at least 32 bytes
each, the native function returns false. -/
theorem C5_mixed_case_rejected (lib : SHA256) (c : List Char)
    (witness random : Option (List Char)) (hl : HasLowerHexLetter c)
    (hu : HasUpperHexLetter c) (hw : 32 ≤ (decoded witness).length)
    (hr : 32 ≤ (decoded random).length) :
    Java_com_vvote_verifierlibrary_utils_crypto_CryptoUtils_openSSLVerifyHashCommitment
      lib (some c) witness random = Outcome.returned false := by
  obtain ⟨b, hb⟩ := verify_returns lib (some c) witness random hw hr
  rcases verify_cases lib witness random with hc | hc | ⟨md, hc⟩
  · exact hc _
  · rw [hc] at hb; exact Outcome.noConfusion hb
  · rw [hc, GetJStringContent, not_compareCommitment_of_mixed md c hl hu]

/-- C5 at the commitment `Abab..ab`, which is the correct digest hex up to the
case of its first letter. -/
theorem C5_mixed_case_rejected_witness :
    Java_com_vvote_verifierlibrary_utils_crypto_CryptoUtils_openSSLVerifyHashCommitment
      (idealSHA256 sumHash sumHash_isDigestFunction)
      (some ('A' :: (hexEncode (List.replicate 32 171)).tail))
      (some (hexEncode ([171] ++ List.replicate 31 0)))
      (some (hexEncode (List.replicate 32 0))) = Outcome.returned false :=
  C5_mixed_case_rejected (idealSHA256 sumHash sumHash_isDigestFunction)
    ('A' :: (hexEncode (List.replicate 32 171)).tail)
    (some (hexEncode ([171] ++ List.replicate 31 0)))
    (some (hexEncode (List.replicate 32 0))) (by decide) (by decide) (by decide) (by decide)

/-- C6 (mismatch under collision resistance): for every digest function `H`,
all 32-byte witnesses `W`, `W'` and 32-byte randomness values `R`, `R'` such
that `(W', R')` differs from `(W, R)` in a single byte, if the digests of
`W' ++ R'` and `W ++ R` differ and the native function returns true on
`(c, hex(W), hex(R))`, then it returns false on `(c, hex(W'), hex(R'))`. -/
theorem C6_mismatch (H : List Nat → List Nat) (hH : IsDigestFunction H)
    (c : Option (List Char)) (W R W' R' : List Nat)
    (hW : W.length = 32) (hWb : IsBytes W) (hR : R.length = 32) (hRb : IsBytes R)
    (hW' : W'.length = 32) (hWb' : IsBytes W') (hR' : R'.length = 32) (hRb' : IsBytes R')
    (hdiff : DifferInOneByte (W ++ R) (W' ++ R'))
    (hcr : H (W' ++ R') ≠ H (W ++ R))
    (h : Java_com_vvote_verifierlibrary_utils_crypto_CryptoUtils_openSSLVerifyHashCommitment
      (idealSHA256 H hH) c (some (hexEncode W)) (some (hexEncode R)) = Outcome.returned true) :
    Java_com_vvote_verifierlibrary_utils_crypto_CryptoUtils_openSSLVerifyHashCommitment
      (idealSHA256 H hH) c (some (hexEncode W')) (some (hexEncode R')) =
        Outcome.returned false := by
  have _ := hdiff
  have dW : decoded (some (hexEncode W)) = W := hexStringToASCIIString_hexEncode W hWb
  have dR : decoded (some (hexEncode R)) = R := hexStringToASCIIString_hexEncode R hRb
  have dW' : decoded (some (hexEncode W')) = W' := hexStringToASCIIString_hexEncode W' hWb'
  have dR' : decoded (some (hexEncode R')) = R' := hexStringToASCIIString_hexEncode R' hRb'
  have hT : W.take 32 = W := by rw [← hW, List.take_length]
  have hT' : W'.take 32 = W' := by rw [← hW', List.take_length]
  rw [verify_ideal H hH _ _ _ (by rw [dW, hW]) (by rw [dR, hR]), dW, dR, hT,
    reducedRandomness, if_pos (by omega)] at h
  rw [verify_ideal H hH _ _ _ (by rw [dW', hW']) (by rw [dR', hR']), dW', dR', hT',
    reducedRandomness, if_pos (by omega)]
  have h1 : compareCommitment (hexEncode (H (W ++ R))) (GetJStringContent c) = true := by
    injection h
  cases h2 : compareCommitment (hexEncode (H (W' ++ R'))) (GetJStringContent c) with
  | false => rfl
  | true =>
    exact absurd (digest_eq_of_compareCommitment _ _ (hH _).2 (hH _).2 _ h2 h1) hcr

/-- C6 at `W` = 32 zero bytes, `R` = 32 bytes of `0x11`, and `W'` obtained from
`W` by changing its first byte to `0x01`. -/
theorem C6_mismatch_witness :
    Java_com_vvote_verifierlibrary_utils_crypto_CryptoUtils_openSSLVerifyHashCommitment
      (idealSHA256 sumHash sumHash_isDigestFunction)
      (some (hexEncode (sumHash (List.replicate 32 0 ++ List.replicate 32 17))))
      (some (hexEncode ([1] ++ List.replicate 31 0)))
      (some (hexEncode (List.replicate 32 17))) = Outcome.returned false :=
  C6_mismatch sumHash sumHash_isDigestFunction
    (some (hexEncode (sumHash (List.replicate 32 0 ++ List.replicate 32 17))))
    (List.replicate 32 0) (List.replicate 32 17) ([1] ++ List.replicate 31 0)
    (List.replicate 32 17) (by decide) (by decide) (by decide) (by decide) (by decide)
    (by decide) (by decide) (by decide) (by decide) (by decide) (by decide)

/-- C7, as stated, fails: malformed hex is not reported. The commitments `zz`
and `abc` give a plain false; the witness `zz00..00` is decoded as 32 zero
bytes and the randomness `11..111z` as 32 bytes `11 .. 11 01`, and the
commitment computed over the bytes so decoded is accepted. -/
theorem C7_malformed_hex_counterexample :
    Malformed ['z', 'z'] ∧ Malformed ['a', 'b', 'c'] ∧
    Malformed (['z', 'z'] ++ List.replicate 62 '0') ∧
    Malformed (List.replicate 63 '1' ++ ['z']) ∧
    Java_com_vvote_verifierlibrary_utils_crypto_CryptoUtils_openSSLVerifyHashCommitment
      (idealSHA256 sumHash sumHash_isDigestFunction) (some ['z', 'z'])
      (some (List.replicate 64 '0')) (some (List.replicate 64 '1')) = Outcome.returned false ∧
    Java_com_vvote_verifierlibrary_utils_crypto_CryptoUtils_openSSLVerifyHashCommitment
      (idealSHA256 sumHash sumHash_isDigestFunction) (some ['a', 'b', 'c'])
      (some (List.replicate 64 '0')) (some (List.replicate 64 '1')) = Outcome.returned false ∧
    decoded (some (['z', 'z'] ++ List.replicate 62 '0')) = List.replicate 32 0 ∧
    Java_com_vvote_verifierlibrary_utils_crypto_CryptoUtils_openSSLVerifyHashCommitment
      (idealSHA256 sumHash sumHash_isDigestFunction)
      (some (hexEncode (sumHash (List.replicate 32 0 ++ List.replicate 32 17))))
      (some (['z', 'z'] ++ List.replicate 62 '0')) (some (List.replicate 64 '1')) =
        Outcome.returned true ∧
    decoded (some (List.replicate 63 '1' ++ ['z'])) = List.replicate 31 17 ++ [1] ∧
    Java_com_vvote_verifierlibrary_utils_crypto_CryptoUtils_openSSLVerifyHashCommitment
      (idealSHA256 sumHash sumHash_isDigestFunction)
      (some (hexEncode (sumHash (List.replicate 32 0 ++ (List.replicate 31 17 ++ [1])))))
      (some (List.replicate 64 '0')) (some (List.replicate 63 '1' ++ ['z'])) =
        Outcome.returned true := by
  decide

/-- C7 as amended: malformed hex is not reported. For every library and every
call in which one of the three parameters is malformed, and whose witness and
randomness strings have at least 63 characters each, the witness and the
randomness are decoded into one byte per started pair of characters and the
native function returns a boolean result. -/
theorem C7_malformed_hex_not_rejected (lib : SHA256) (c w r : List Char)
    (hm : Malformed c ∨ Malformed w ∨ Malformed r)
    (hw : 63 ≤ w.length) (hr : 63 ≤ r.length) :
    (decoded (some w)).length = (w.length + 1) / 2 ∧
    (decoded (some r)).length = (r.length + 1) / 2 ∧
    ∃ b, Java_com_vvote_verifierlibrary_utils_crypto_CryptoUtils_openSSLVerifyHashCommitment
      lib (some c) (some w) (some r) = Outcome.returned b := by
  have _ := hm
  have lw : (decoded (some w)).length = (w.length + 1) / 2 := by
    simp [decoded, GetJStringContent, hexStringToASCIIString_length]
  have lr : (decoded (some r)).length = (r.length + 1) / 2 := by
    simp [decoded, GetJStringContent, hexStringToASCIIString_length]
  exact ⟨lw, lr, verify_returns lib (some c) (some w) (some r) (by omega) (by omega)⟩

/-- C7 as amended, at the commitment `zz`, the 63-character witness `abc00..0`
and the randomness `zz11..11`. -/
theorem C7_malformed_hex_not_rejected_witness :
    (decoded (some (['a', 'b', 'c'] ++ List.replicate 60 '0'))).length =
      ((['a', 'b', 'c'] ++ List.replicate 60 '0').length + 1) / 2 ∧
    (decoded (some (['z', 'z'] ++ List.replicate 62 '1'))).length =
      ((['z', 'z'] ++ List.replicate 62 '1').length + 1) / 2 ∧
    ∃ b, Java_com_vvote_verifierlibrary_utils_crypto_CryptoUtils_openSSLVerifyHashCommitment
      (idealSHA256 sumHash sumHash_isDigestFunction) (some ['z', 'z'])
      (some (['a', 'b', 'c'] ++ List.replicate 60 '0'))
      (some (['z', 'z'] ++ List.replicate 62 '1')) = Outcome.returned b :=
  C7_malformed_hex_not_rejected (idealSHA256 sumHash sumHash_isDigestFunction) ['z', 'z']
    (['a', 'b', 'c'] ++ List.replicate 60 '0') (['z', 'z'] ++ List.replicate 62 '1')
    (by decide) (by decide) (by decide)

/-- C8, the code at short witnesses: nothing is rejected. For every digest
function `H` and 32 bytes of randomness `R`, a witness `W` of 31 bytes is read
together with the terminating NUL of its string, so that the commitment
`hex(H (W ++ [0] ++ R))` is accepted; for a witness of fewer than 31 bytes, the
null one included, the 32-byte read leaves the array and the call has no
defined result. -/
theorem C8_short_witness_not_rejected (H : List Nat → List Nat) (hH : IsDigestFunction H)
    (W R : List Nat) (hWb : IsBytes W) (hR : R.length = 32) (hRb : IsBytes R) :
    (W.length = 31 →
      Java_com_vvote_verifierlibrary_utils_crypto_CryptoUtils_openSSLVerifyHashCommitment
        (idealSHA256 H hH) (some (hexEncode (H (W ++ [0] ++ R)))) (some (hexEncode W))
        (some (hexEncode R)) = Outcome.returned true) ∧
    (W.length < 31 → ∀ commitment,
      Java_com_vvote_verifierlibrary_utils_crypto_CryptoUtils_openSSLVerifyHashCommitment
        (idealSHA256 H hH) commitment (some (hexEncode W)) (some (hexEncode R)) =
          Outcome.undefinedBehaviour) ∧
    (∀ commitment,
      Java_com_vvote_verifierlibrary_utils_crypto_CryptoUtils_openSSLVerifyHashCommitment
        (idealSHA256 H hH) commitment none (some (hexEncode R)) =
          Outcome.undefinedBehaviour) := by
  have dW : decoded (some (hexEncode W)) = W := hexStringToASCIIString_hexEncode W hWb
  have dR : decoded (some (hexEncode R)) = R := hexStringToASCIIString_hexEncode R hRb
  refine ⟨fun hW => ?_, fun hW commitment => ?_, fun commitment => ?_⟩
  · rw [verify_ideal_c_str H hH _ _ _ (by rw [dW]; omega) (by rw [dR]; omega), dW, dR,
      if_neg (by omega)]
    have e1 : (c_str W).take 32 = W ++ [0] := by
      unfold c_str
      rw [List.take_of_length_le (by simp; omega)]
    have e2 : (c_str R).take 32 = R := by
      unfold c_str
      rw [← hR, List.take_left']
      rfl
    rw [e1, e2]
    simp [compareCommitment, GetJStringContent]
  · exact verify_ideal_short_witness H hH _ _ _ (by rw [dW]; exact hW)
  · exact verify_ideal_short_witness H hH _ _ _ (by decide)

/-- C8 at `W` = 31 zero bytes and `R` = 32 bytes of `0x11`. -/
theorem C8_short_witness_not_rejected_witness :
    Java_com_vvote_verifierlibrary_utils_crypto_CryptoUtils_openSSLVerifyHashCommitment
      (idealSHA256 sumHash sumHash_isDigestFunction)
      (some (hexEncode (sumHash (List.replicate 31 0 ++ [0] ++ List.replicate 32 17))))
      (some (hexEncode (List.replicate 31 0)))
      (some (hexEncode (List.replicate 32 17))) = Outcome.returned true :=
  (C8_short_witness_not_rejected sumHash sumHash_isDigestFunction (List.replicate 31 0)
    (List.replicate 32 17) (by decide) (by decide) (by decide)).1 (by decide)

/-- C9, the code at short randomness: nothing is rejected. For every digest
function `H` and 32-byte witness `W`, randomness `R` of 31 bytes is read
together with the terminating NUL of its string, so that the commitment
`hex(H (W ++ R ++ [0]))` is accepted; for randomness of fewer than 31 bytes, the
null one included, the 32-byte read leaves the array and the call has no
defined result. -/
theorem C9_short_randomness_not_rejected (H : List Nat → List Nat) (hH : IsDigestFunction H)
    (W R : List Nat) (hW : W.length = 32) (hWb : IsBytes W) (hRb : IsBytes R) :
    (R.length = 31 →
      Java_com_vvote_verifierlibrary_utils_crypto_CryptoUtils_openSSLVerifyHashCommitment
        (idealSHA256 H hH) (some (hexEncode (H (W ++ R ++ [0])))) (some (hexEncode W))
        (some (hexEncode R)) = Outcome.returned true) ∧
    (R.length < 31 → ∀ commitment,
      Java_com_vvote_verifierlibrary_utils_crypto_CryptoUtils_openSSLVerifyHashCommitment
        (idealSHA256 H hH) commitment (some (hexEncode W)) (some (hexEncode R)) =
          Outcome.undefinedBehaviour) ∧
    (∀ commitment,
      Java_com_vvote_verifierlibrary_utils_crypto_CryptoUtils_openSSLVerifyHashCommitment
        (idealSHA256 H hH) commitment (some (hexEncode W)) none =
          Outcome.undefinedBehaviour) := by
  have dW : decoded (some (hexEncode W)) = W := hexStringToASCIIString_hexEncode W hWb
  have dR : decoded (some (hexEncode R)) = R := hexStringToASCIIString_hexEncode R hRb
  refine ⟨fun hR => ?_, fun hR commitment => ?_, fun commitment => ?_⟩
  · rw [verify_ideal_c_str H hH _ _ _ (by rw [dW]; omega) (by rw [dR]; omega), dW, dR,
      if_neg (by omega)]
    have e1 : (c_str W).take 32 = W := by
      unfold c_str
      rw [← hW, List.take_left']
      rfl
    have e2 : (c_str R).take 32 = R ++ [0] := by
      unfold c_str
      rw [List.take_of_length_le (by simp; omega)]
    rw [e1, e2, List.append_assoc]
    simp [compareCommitment, GetJStringContent]
  · exact verify_ideal_short_random H hH _ _ _ (by rw [dR]; exact hR)
  · exact verify_ideal_short_random H hH _ _ _ (by decide)

/-- C9 at `W` = 32 zero bytes and `R` = 31 bytes of `0x11`. -/
theorem C9_short_randomness_not_rejected_witness :
    Java_com_vvote_verifierlibrary_utils_crypto_CryptoUtils_openSSLVerifyHashCommitment
      (idealSHA256 sumHash sumHash_isDigestFunction)
      (some (hexEncode (sumHash (List.replicate 32 0 ++ List.replicate 31 17 ++ [0]))))
      (some (hexEncode (List.replicate 32 0)))
      (some (hexEncode (List.replicate 31 17))) = Outcome.returned true :=
  (C9_short_randomness_not_rejected sumHash sumHash_isDigestFunction (List.replicate 32 0)
    (List.replicate 31 17) (by decide) (by decide) (by decide)).1 (by decide)

/-- C10, as stated, fails: a failing primitive call makes the native function
return false. With a correct opening of 64 bytes of randomness, the call
returns true when no primitive fails, and returns false when the first
`SHA256_Init`, the `SHA256_Update` of the pre-hash or the last `SHA256_Final`
reports failure. -/
theorem C10_primitive_failure_counterexample :
    Java_com_vvote_verifierlibrary_utils_crypto_CryptoUtils_openSSLVerifyHashCommitment
      (faultySHA256 sumHash sumHash_isDigestFunction 7)
      (some (hexEncode (sumHash (List.replicate 32 0 ++ sumHash (List.replicate 64 170)))))
      (some (hexEncode (List.replicate 32 0)))
      (some (hexEncode (List.replicate 64 170))) = Outcome.returned true ∧
    PrimitiveFailure (faultySHA256 sumHash sumHash_isDigestFunction 0)
      (List.replicate 32 0) (List.replicate 64 170) ∧
    Java_com_vvote_verifierlibrary_utils_crypto_CryptoUtils_openSSLVerifyHashCommitment
      (faultySHA256 sumHash sumHash_isDigestFunction 0)
      (some (hexEncode (sumHash (List.replicate 32 0 ++ sumHash (List.replicate 64 170)))))
      (some (hexEncode (List.replicate 32 0)))
      (some (hexEncode (List.replicate 64 170))) = Outcome.returned false ∧
    PrimitiveFailure (faultySHA256 sumHash sumHash_isDigestFunction 1)
      (List.replicate 32 0) (List.replicate 64 170) ∧
    Java_com_vvote_verifierlibrary_utils_crypto_CryptoUtils_openSSLVerifyHashCommitment
      (faultySHA256 sumHash sumHash_isDigestFunction 1)
      (some (hexEncode (sumHash (List.replicate 32 0 ++ sumHash (List.replicate 64 170)))))
      (some (hexEncode (List.replicate 32 0)))
      (some (hexEncode (List.replicate 64 170))) = Outcome.returned false ∧
    PrimitiveFailure (faultySHA256 sumHash sumHash_isDigestFunction 6)
      (List.replicate 32 0) (List.replicate 64 170) ∧
    Java_com_vvote_verifierlibrary_utils_crypto_CryptoUtils_openSSLVerifyHashCommitment
      (faultySHA256 sumHash sumHash_isDigestFunction 6)
      (some (hexEncode (sumHash (List.replicate 32 0 ++ sumHash (List.replicate 64 170)))))
      (some (hexEncode (List.replicate 32 0)))
      (some (hexEncode (List.replicate 64 170))) = Outcome.returned false := by
  decide

/-- C10 as amended: for every library and every call whose witness and
randomness decode to at least 32 bytes each, whenever a SHA-256 primitive call
on the path of the native function (init, update or final, in the randomness
pre-hash or in the final hash) reports failure, the function returns false. -/
theorem C10_primitive_failure_returns_false (lib : SHA256)
    (commitment witness random : Option (List Char))
    (hw : 32 ≤ (decoded witness).length) (hr : 32 ≤ (decoded random).length)
    (hf : PrimitiveFailure lib (decoded witness) (decoded random)) :
    Java_com_vvote_verifierlibrary_utils_crypto_CryptoUtils_openSSLVerifyHashCommitment
      lib commitment witness random = Outcome.returned false :=
  verify_of_primitiveFailure lib commitment witness random hw hr hf

/-- C10 as amended, at a correct opening and a library whose `SHA256_Final` of
the pre-hash, its call number 2, reports failure. -/
theorem C10_primitive_failure_returns_false_witness :
    Java_com_vvote_verifierlibrary_utils_crypto_CryptoUtils_openSSLVerifyHashCommitment
      (faultySHA256 sumHash sumHash_isDigestFunction 2)
      (some (hexEncode (sumHash (List.replicate 32 0 ++ sumHash (List.replicate 64 170)))))
      (some (hexEncode (List.replicate 32 0)))
      (some (hexEncode (List.replicate 64 170))) = Outcome.returned false :=
  C10_primitive_failure_returns_false (faultySHA256 sumHash sumHash_isDigestFunction 2)
    (some (hexEncode (sumHash (List.replicate 32 0 ++ sumHash (List.replicate 64 170)))))
    (some (hexEncode (List.replicate 32 0))) (some (hexEncode (List.replicate 64 170)))
    (by decide) (by decide) (by decide)

/-! ## The parts of the input the result depends on -/

theorem finalHash_congr_wit (lib : SHA256) (context : lib.CTX) (wit1 wit2 m_rand : List Nat)
    (c : List Char)
    (h : readBytes wit1 SHA256_DIGEST_LENGTH = readBytes wit2 SHA256_DIGEST_LENGTH) :
    finalHash lib context wit1 m_rand c = finalHash lib context wit2 m_rand c := by
  unfold finalHash
  rw [h]

/-- Two witnesses whose decoded forms have the same first 32 bytes give the
same result. -/
theorem verify_congr_witness (lib : SHA256) (commitment random witness1 witness2 : Option (List Char))
    (h1 : 32 ≤ (decoded witness1).length) (h2 : 32 ≤ (decoded witness2).length)
    (h : (decoded witness1).take 32 = (decoded witness2).take 32) :
    Java_com_vvote_verifierlibrary_utils_crypto_CryptoUtils_openSSLVerifyHashCommitment
        lib commitment witness1 random =
      Java_com_vvote_verifierlibrary_utils_crypto_CryptoUtils_openSSLVerifyHashCommitment
        lib commitment witness2 random := by
  have hread : readBytes (c_str (decoded witness1)) SHA256_DIGEST_LENGTH =
      readBytes (c_str (decoded witness2)) SHA256_DIGEST_LENGTH := by
    rw [readBytes_c_str _ h1, readBytes_c_str _ h2]
    exact congrArg some h
  unfold Java_com_vvote_verifierlibrary_utils_crypto_CryptoUtils_openSSLVerifyHashCommitment
  simp only [decoded] at hread
  simp only [finalHash_congr_wit lib _ _ _ _ _ hread]

theorem renderDigest_length (md : List Nat) : (renderDigest md).length = 64 := by
  have h : ∀ n, ((List.range n).flatMap (fun i => sprintf02x (md.getD i 0))).length = 2 * n := by
    intro n
    induction n with
    | zero => simp
    | succ k ih =>
      rw [List.range_succ, List.flatMap_append, List.length_append, ih]
      simp [sprintf02x]
      omega
  exact h 32

theorem compareCommitment_of_length_ne (md : List Nat) (c : List Char) (hc : c.length ≠ 64) :
    compareCommitment (renderDigest md) c = false := by
  cases h : compareCommitment (renderDigest md) c with
  | false => rfl
  | true =>
    exfalso
    rcases (compareCommitment_eq_true_iff _ _).1 h with h | h
    · rw [h, renderDigest_length] at hc; exact hc rfl
    · rw [h, uppercase, List.length_map, renderDigest_length] at hc; exact hc rfl

/-! ## Claims on the frame of the result -/

/-- C11 (only the first 32 decoded witness bytes matter): for every library,
commitment and randomness, and any two witness strings that each decode to at
least 32 bytes and whose decoded bytes agree on positions 0..31, the native
function gives the same result on both. -/
theorem C11_witness_frame (lib : SHA256) (commitment random witness1 witness2 : Option (List Char))
    (h1 : 32 ≤ (decoded witness1).length) (h2 : 32 ≤ (decoded witness2).length)
    (hagree : ∀ i, i < 32 → (decoded witness1)[i]? = (decoded witness2)[i]?) :
    Java_com_vvote_verifierlibrary_utils_crypto_CryptoUtils_openSSLVerifyHashCommitment
        lib commitment witness1 random =
      Java_com_vvote_verifierlibrary_utils_crypto_CryptoUtils_openSSLVerifyHashCommitment
        lib commitment witness2 random := by
  apply verify_congr_witness lib commitment random witness1 witness2 h1 h2
  apply List.ext_getElem?
  intro i
  by_cases hi : i < 32
  · rw [List.getElem?_take_of_lt hi, List.getElem?_take_of_lt hi]
    exact hagree i hi
  · rw [List.getElem?_eq_none (by simp; omega), List.getElem?_eq_none (by simp; omega)]

/-- C11 at the 32-byte witness `ab 00 .. 00` and the 34-byte witness
`ab 00 .. 00 ff 01`. -/
theorem C11_witness_frame_witness :
    Java_com_vvote_verifierlibrary_utils_crypto_CryptoUtils_openSSLVerifyHashCommitment
        (idealSHA256 sumHash sumHash_isDigestFunction)
        (some (hexEncode (List.replicate 32 171)))
        (some (hexEncode ([171] ++ List.replicate 31 0)))
        (some (hexEncode (List.replicate 32 0))) =
      Java_com_vvote_verifierlibrary_utils_crypto_CryptoUtils_openSSLVerifyHashCommitment
        (idealSHA256 sumHash sumHash_isDigestFunction)
        (some (hexEncode (List.replicate 32 171)))
        (some (hexEncode ([171] ++ List.replicate 31 0 ++ [255, 1])))
        (some (hexEncode (List.replicate 32 0))) :=
  C11_witness_frame (idealSHA256 sumHash sumHash_isDigestFunction)
    (some (hexEncode (List.replicate 32 171))) (some (hexEncode (List.replicate 32 0)))
    (some (hexEncode ([171] ++ List.replicate 31 0)))
    (some (hexEncode ([171] ++ List.replicate 31 0 ++ [255, 1])))
    (by decide) (by decide)
    (by
      rw [show decoded (some (hexEncode ([171] ++ List.replicate 31 0))) =
          [171] ++ List.replicate 31 0 from hexStringToASCIIString_hexEncode _ (by decide),
        show decoded (some (hexEncode ([171] ++ List.replicate 31 0 ++ [255, 1]))) =
          [171] ++ List.replicate 31 0 ++ [255, 1] from
          hexStringToASCIIString_hexEncode _ (by decide)]
      decide)

/-- C12 (the commitment is compared as text, with no length check): for every
library, every commitment string whose length is not 64 characters, the empty
and the null one included, and every witness and randomness that decode to at
least 32 bytes each, the native function completes and returns false. -/
theorem C12_commitment_length (lib : SHA256) (commitment witness random : Option (List Char))
    (hc : (GetJStringContent commitment).length ≠ 64)
    (hw : 32 ≤ (decoded witness).length) (hr : 32 ≤ (decoded random).length) :
    Java_com_vvote_verifierlibrary_utils_crypto_CryptoUtils_openSSLVerifyHashCommitment
      lib commitment witness random = Outcome.returned false := by
  obtain ⟨b, hb⟩ := verify_returns lib commitment witness random hw hr
  rcases verify_cases lib witness random with h | h | ⟨md, h⟩
  · exact h _
  · rw [h] at hb; exact Outcome.noConfusion hb
  · rw [h, compareCommitment_of_length_ne md _ hc]

/-- C12 at the empty commitment. -/
theorem C12_commitment_length_witness :
    Java_com_vvote_verifierlibrary_utils_crypto_CryptoUtils_openSSLVerifyHashCommitment
      (idealSHA256 sumHash sumHash_isDigestFunction) (some [])
      (some (hexEncode (List.replicate 32 0)))
      (some (hexEncode (List.replicate 32 17))) = Outcome.returned false :=
  C12_commitment_length (idealSHA256 sumHash sumHash_isDigestFunction) (some [])
    (some (hexEncode (List.replicate 32 0))) (some (hexEncode (List.replicate 32 17)))
    (by decide) (by decide) (by decide)

/-! ## Hex digit characters -/

theorem char_mem_of_range (c : Char) (lo hi : Nat) (h1 : lo ≤ c.toNat) (h2 : c.toNat ≤ hi) :
    c ∈ (List.range (hi + 1 - lo)).map (fun i => Char.ofNat (lo + i)) := by
  rw [List.mem_map]
  refine ⟨c.toNat - lo, by simp; omega, ?_⟩
  rw [show lo + (c.toNat - lo) = c.toNat by omega]
  exact Char.ofNat_toNat c

theorem range_subset_hexChars :
    (∀ x ∈ (List.range (57 + 1 - 48)).map (fun i => Char.ofNat (48 + i)), x ∈ hexChars) ∧
    (∀ x ∈ (List.range (102 + 1 - 97)).map (fun i => Char.ofNat (97 + i)), x ∈ hexChars) ∧
    (∀ x ∈ (List.range (70 + 1 - 65)).map (fun i => Char.ofNat (65 + i)), x ∈ hexChars) := by
  decide

theorem mem_hexChars_of_hexDigitValue (c : Char) (h : (hexDigitValue c).isSome) :
    c ∈ hexChars := by
  unfold hexDigitValue at h
  split_ifs at h with h1 h2 h3
  · exact range_subset_hexChars.1 c (char_mem_of_range c 48 57 h1.1 h1.2)
  · exact range_subset_hexChars.2.1 c (char_mem_of_range c 97 102 h2.1 h2.2)
  · exact range_subset_hexChars.2.2 c (char_mem_of_range c 65 70 h3.1 h3.2)
  · simp at h

theorem hexChars_facts : ∀ c ∈ hexChars,
    isspace c = false ∧ c ≠ '-' ∧ c ≠ '+' ∧ hexDigitValue c = some (digitValue c) ∧
    digitValue c < 16 ∧
    hexDigitValue (toupper c) = hexDigitValue c ∧
    hexDigitValue (tolower c) = hexDigitValue c := by
  decide

/-- The byte a pair of hex digits decodes to. -/
theorem toChar_strtol16_hex_pair (a b : Char) (ha : (hexDigitValue a).isSome)
    (hb : (hexDigitValue b).isSome) :
    toChar (strtol16 [a, b]) = 16 * digitValue a + digitValue b := by
  obtain ⟨s1, m1, p1, v1, l1, -, -⟩ := hexChars_facts a (mem_hexChars_of_hexDigitValue a ha)
  obtain ⟨-, -, -, v2, l2, -, -⟩ := hexChars_facts b (mem_hexChars_of_hexDigitValue b hb)
  rw [strtol16_pair a b _ _ v1 v2 s1 m1 p1]
  unfold toChar
  omega

theorem hexStringToASCIIString_eq_hexPairs (s : List Char) (hs : IsHexString s)
    (heven : s.length % 2 = 0) : hexStringToASCIIString s [] = hexPairs s := by
  induction s using hexPairs.induct with
  | case1 a b rest ih =>
    have ha := hs a (by simp)
    have hb := hs b (by simp)
    have hrest : IsHexString rest := fun x hx => hs x (by simp [hx])
    rw [hexStringToASCIIString, hexStringToASCIIString_append, hexPairs,
      ih hrest (by simp at heven; omega), toChar_strtol16_hex_pair a b ha hb]
    rfl
  | case2 s hne =>
    match s, hne, heven with
    | [], _, _ => rfl
    | [a], _, h => simp at h
    | a :: b :: rest, hne, _ => exact absurd rfl (hne a b rest)

theorem hexPairs_length (s : List Char) : (hexPairs s).length = s.length / 2 := by
  induction s using hexPairs.induct with
  | case1 a b rest ih => simp [hexPairs, ih]; omega
  | case2 s hne =>
    match s, hne with
    | [], _ => rfl
    | [a], _ => simp [hexPairs]
    | a :: b :: rest, hne => exact absurd rfl (hne a b rest)

theorem hexPairs_getElem? (s : List Char) (i : Nat) (h : 2 * i + 1 < s.length) :
    ∃ a b, s[2 * i]? = some a ∧ s[2 * i + 1]? = some b ∧
      (hexPairs s)[i]? = some (16 * digitValue a + digitValue b) := by
  induction i generalizing s with
  | zero =>
    match s, h with
    | a :: b :: rest, _ => exact ⟨a, b, by simp, by simp, by simp [hexPairs]⟩
  | succ k ih =>
    match s, h with
    | a :: b :: rest, h =>
      obtain ⟨x, y, hx, hy, hxy⟩ := ih rest (by simp at h; omega)
      refine ⟨x, y, ?_, ?_, ?_⟩
      · rw [show 2 * (k + 1) = 2 * k + 1 + 1 by omega]; simpa using hx
      · rw [show 2 * (k + 1) + 1 = 2 * k + 1 + 1 + 1 by omega]; simpa using hy
      · simpa [hexPairs] using hxy

theorem hexPairs_map (f : Char → Char) (s : List Char)
    (hf : ∀ c ∈ s, digitValue (f c) = digitValue c) : hexPairs (s.map f) = hexPairs s := by
  induction s using hexPairs.induct with
  | case1 a b rest ih =>
    simp only [List.map_cons, hexPairs]
    rw [hf a (by simp), hf b (by simp), ih (fun c hc => hf c (by simp [hc]))]
  | case2 s hne =>
    match s, hne with
    | [], _ => rfl
    | [a], _ => rfl
    | a :: b :: rest, hne => exact absurd rfl (hne a b rest)

theorem digitValue_case (c : Char) (hc : (hexDigitValue c).isSome) :
    digitValue (toupper c) = digitValue c ∧ digitValue (tolower c) = digitValue c := by
  obtain ⟨-, -, -, -, -, hu, hl⟩ := hexChars_facts c (mem_hexChars_of_hexDigitValue c hc)
  unfold digitValue
  rw [hu, hl]
  exact ⟨rfl, rfl⟩

theorem isHexString_map_case (s : List Char) (hs : IsHexString s) :
    IsHexString (uppercase s) ∧ IsHexString (lowercase s) := by
  constructor
  · intro ch hch
    rw [uppercase, List.mem_map] at hch
    obtain ⟨c, hc, rfl⟩ := hch
    obtain ⟨-, -, -, -, -, hu, -⟩ := hexChars_facts c (mem_hexChars_of_hexDigitValue c (hs c hc))
    rw [hu]; exact hs c hc
  · intro ch hch
    rw [lowercase, List.mem_map] at hch
    obtain ⟨c, hc, rfl⟩ := hch
    obtain ⟨-, -, -, -, -, -, hl⟩ := hexChars_facts c (mem_hexChars_of_hexDigitValue c (hs c hc))
    rw [hl]; exact hs c hc

/-! ## Claims on the decoder and the rendering -/

/-- C13 (hex decoding of well-formed input): for every string `s` of even
length `2n` made of hex digits only, the decoder appends exactly `n` bytes to
its output; for every `i < n` the `i`-th appended byte is
`16 * v(s[2i]) + v(s[2i+1])`; `v` gives a letter the same value in either case,
and decoding the uppercase or the lowercase form of `s` appends the same
bytes. -/
theorem C13_hex_decoding (s : List Char) (n : Nat) (out : List Nat)
    (hlen : s.length = 2 * n) (hs : IsHexString s) :
    ∃ bytes, hexStringToASCIIString s out = out ++ bytes ∧ bytes.length = n ∧
      (∀ i, i < n → ∃ a b, s[2 * i]? = some a ∧ s[2 * i + 1]? = some b ∧
        bytes[i]? = some (16 * digitValue a + digitValue b)) ∧
      (∀ ch ∈ s, digitValue (toupper ch) = digitValue ch ∧
        digitValue (tolower ch) = digitValue ch) ∧
      hexStringToASCIIString (uppercase s) out = out ++ bytes ∧
      hexStringToASCIIString (lowercase s) out = out ++ bytes := by
  have hcase := fun ch (hch : ch ∈ s) => digitValue_case ch (hs ch hch)
  refine ⟨hexPairs s, ?_, ?_, ?_, hcase, ?_, ?_⟩
  · rw [hexStringToASCIIString_append,
      hexStringToASCIIString_eq_hexPairs s hs (by omega)]
  · rw [hexPairs_length]; omega
  · intro i hi
    exact hexPairs_getElem? s i (by omega)
  · rw [hexStringToASCIIString_append, hexStringToASCIIString_eq_hexPairs _
      (isHexString_map_case s hs).1 (by simp [uppercase]; omega), uppercase,
      hexPairs_map toupper s (fun c hc => (hcase c hc).1)]
  · rw [hexStringToASCIIString_append, hexStringToASCIIString_eq_hexPairs _
      (isHexString_map_case s hs).2 (by simp [lowercase]; omega), lowercase,
      hexPairs_map tolower s (fun c hc => (hcase c hc).2)]

/-- C13 at the string `1aFf`, decoded after the byte `07`. -/
theorem C13_hex_decoding_witness :
    ∃ bytes, hexStringToASCIIString ['1', 'a', 'F', 'f'] [7] = [7] ++ bytes ∧
      bytes.length = 2 ∧
      (∀ i, i < 2 → ∃ a b, ['1', 'a', 'F', 'f'][2 * i]? = some a ∧
        ['1', 'a', 'F', 'f'][2 * i + 1]? = some b ∧
        bytes[i]? = some (16 * digitValue a + digitValue b)) ∧
      (∀ ch ∈ ['1', 'a', 'F', 'f'], digitValue (toupper ch) = digitValue ch ∧
        digitValue (tolower ch) = digitValue ch) ∧
      hexStringToASCIIString (uppercase ['1', 'a', 'F', 'f']) [7] = [7] ++ bytes ∧
      hexStringToASCIIString (lowercase ['1', 'a', 'F', 'f']) [7] = [7] ++ bytes :=
  C13_hex_decoding ['1', 'a', 'F', 'f'] 2 [7] (by decide) (by decide)

theorem hexEncode_getElem? (md : List Nat) (i b : Nat) (h : md[i]? = some b) :
    (hexEncode md)[2 * i]? = some (Nat.digitChar (b % 256 / 16)) ∧
      (hexEncode md)[2 * i + 1]? = some (Nat.digitChar (b % 256 % 16)) := by
  induction md generalizing i with
  | nil => simp at h
  | cons x xs ih =>
    rw [hexEncode_cons]
    cases i with
    | zero =>
      simp at h
      subst h
      simp [sprintf02x]
    | succ k =>
      simp at h
      obtain ⟨h1, h2⟩ := ih k h
      constructor
      · rw [show 2 * (k + 1) = 2 * k + 1 + 1 by omega]
        simpa [sprintf02x] using h1
      · rw [show 2 * (k + 1) + 1 = 2 * k + 1 + 1 + 1 by omega]
        simpa [sprintf02x] using h2

theorem digitChar_facts : ∀ n, n < 16 →
    (('0' ≤ Nat.digitChar n ∧ Nat.digitChar n ≤ '9') ∨
      ('a' ≤ Nat.digitChar n ∧ Nat.digitChar n ≤ 'f')) ∧
    (('0' ≤ Nat.digitChar n ∧ Nat.digitChar n ≤ '9') →
      toupper (Nat.digitChar n) = Nat.digitChar n) ∧
    (('a' ≤ Nat.digitChar n ∧ Nat.digitChar n ≤ 'f') →
      'A' ≤ toupper (Nat.digitChar n) ∧ toupper (Nat.digitChar n) ≤ 'F' ∧
      hexDigitValue (toupper (Nat.digitChar n)) = hexDigitValue (Nat.digitChar n)) := by
  decide

theorem hexStringToASCIIString_append_even (t u : List Char) (out : List Nat)
    (ht : t.length % 2 = 0) :
    hexStringToASCIIString (t ++ u) out = hexStringToASCIIString u (hexStringToASCIIString t out) := by
  induction t, out using hexStringToASCIIString.induct with
  | case1 out => simp [hexStringToASCIIString]
  | case2 a out => simp at ht
  | case3 a b rest out ih =>
    rw [List.cons_append, List.cons_append, hexStringToASCIIString, hexStringToASCIIString,
      ih (by simp at ht; omega)]

/-- C14 (digest rendering): for every 32-byte digest `md`, the rendering loop
produces exactly 64 characters; characters `2i` and `2i+1` are the lowercase
hex digits of `md[i] / 16` and `md[i] mod 16`; every character is in `0`-`9` or
`a`-`f`; the uppercasing pass keeps the length at 64, leaves every digit
`0`-`9` unchanged and changes each `a`-`f` to the letter `A`-`F` of the same
value. -/
theorem C14_digest_rendering (md : List Nat) (hlen : md.length = 32) (hb : IsBytes md) :
    (renderDigest md).length = 64 ∧
    (∀ i, i < 32 → ∃ b, md[i]? = some b ∧
      (renderDigest md)[2 * i]? = some (Nat.digitChar (b / 16)) ∧
      (renderDigest md)[2 * i + 1]? = some (Nat.digitChar (b % 16)) ∧
      hexDigitValue (Nat.digitChar (b / 16)) = some (b / 16) ∧
      hexDigitValue (Nat.digitChar (b % 16)) = some (b % 16)) ∧
    (∀ ch ∈ renderDigest md, ('0' ≤ ch ∧ ch ≤ '9') ∨ ('a' ≤ ch ∧ ch ≤ 'f')) ∧
    (uppercase (renderDigest md)).length = 64 ∧
    (∀ j, j < 64 → ∃ ch, (renderDigest md)[j]? = some ch ∧
      (uppercase (renderDigest md))[j]? = some (toupper ch) ∧
      (('0' ≤ ch ∧ ch ≤ '9') → toupper ch = ch) ∧
      (('a' ≤ ch ∧ ch ≤ 'f') → 'A' ≤ toupper ch ∧ toupper ch ≤ 'F' ∧
        hexDigitValue (toupper ch) = hexDigitValue ch)) := by
  refine ⟨renderDigest_length md, ?_, ?_, ?_, ?_⟩
  · intro i hi
    have hi2 : i < md.length := by omega
    have hbi : md[i] < 256 := hb _ (List.getElem_mem hi2)
    have hget : md[i]? = some md[i] := List.getElem?_eq_getElem hi2
    obtain ⟨h1, h2⟩ := hexEncode_getElem? md i md[i] hget
    rw [Nat.mod_eq_of_lt hbi] at h1 h2
    rw [renderDigest_eq_hexEncode md hlen]
    exact ⟨md[i], hget, h1, h2, hexDigitValue_digitChar _ (by omega),
      hexDigitValue_digitChar _ (by omega)⟩
  · intro ch hch
    obtain ⟨n, hn, rfl⟩ := mem_renderDigest md ch hch
    exact (digitChar_facts n hn).1
  · rw [uppercase, List.length_map, renderDigest_length]
  · intro j hj
    have hj2 : j < (renderDigest md).length := by rw [renderDigest_length]; exact hj
    obtain ⟨n, hn, hch⟩ := mem_renderDigest md _ (List.getElem_mem hj2)
    refine ⟨(renderDigest md)[j], List.getElem?_eq_getElem hj2, ?_, ?_, ?_⟩
    · simp [uppercase, List.getElem?_map, List.getElem?_eq_getElem hj2]
    · rw [hch]; exact (digitChar_facts n hn).2.1
    · rw [hch]; exact (digitChar_facts n hn).2.2

/-- C14 at the digest `ab ab .. ab`. -/
theorem C14_digest_rendering_witness :
    (renderDigest (List.replicate 32 171)).length = 64 ∧
    (∀ i, i < 32 → ∃ b, (List.replicate 32 171)[i]? = some b ∧
      (renderDigest (List.replicate 32 171))[2 * i]? = some (Nat.digitChar (b / 16)) ∧
      (renderDigest (List.replicate 32 171))[2 * i + 1]? = some (Nat.digitChar (b % 16)) ∧
      hexDigitValue (Nat.digitChar (b / 16)) = some (b / 16) ∧
      hexDigitValue (Nat.digitChar (b % 16)) = some (b % 16)) ∧
    (∀ ch ∈ renderDigest (List.replicate 32 171),
      ('0' ≤ ch ∧ ch ≤ '9') ∨ ('a' ≤ ch ∧ ch ≤ 'f')) ∧
    (uppercase (renderDigest (List.replicate 32 171))).length = 64 ∧
    (∀ j, j < 64 → ∃ ch, (renderDigest (List.replicate 32 171))[j]? = some ch ∧
      (uppercase (renderDigest (List.replicate 32 171)))[j]? = some (toupper ch) ∧
      (('0' ≤ ch ∧ ch ≤ '9') → toupper ch = ch) ∧
      (('a' ≤ ch ∧ ch ≤ 'f') → 'A' ≤ toupper ch ∧ toupper ch ≤ 'F' ∧
        hexDigitValue (toupper ch) = hexDigitValue ch)) :=
  C14_digest_rendering (List.replicate 32 171) (by decide) (by decide)

/-- C16 (decode undoes render): for every 32-byte digest `md`, the decoder
applied to the lowercase rendering of `md`, and applied to that rendering after
the uppercasing pass, gives exactly the 32 bytes of `md`; so the rendering is
injective on digests. -/
theorem C16_decode_render (md : List Nat) (hlen : md.length = 32) (hb : IsBytes md) :
    hexStringToASCIIString (renderDigest md) [] = md ∧
    hexStringToASCIIString (uppercase (renderDigest md)) [] = md ∧
    (∀ md2 : List Nat, md2.length = 32 → IsBytes md2 →
      renderDigest md2 = renderDigest md → md2 = md) := by
  have h1 : hexStringToASCIIString (renderDigest md) [] = md := by
    rw [renderDigest_eq_hexEncode md hlen, hexStringToASCIIString_hexEncode md hb]
  refine ⟨h1, ?_, ?_⟩
  · rw [renderDigest_eq_hexEncode md hlen, hexStringToASCIIString_uppercase_hexEncode md hb]
  · intro md2 hlen2 hb2 heq
    have h2 : hexStringToASCIIString (renderDigest md2) [] = md2 := by
      rw [renderDigest_eq_hexEncode md2 hlen2, hexStringToASCIIString_hexEncode md2 hb2]
    rw [← h2, heq, h1]

/-- C16 at the digest `00 01 .. 1f`. -/
theorem C16_decode_render_witness :
    hexStringToASCIIString (renderDigest (List.range 32)) [] = List.range 32 ∧
    hexStringToASCIIString (uppercase (renderDigest (List.range 32))) [] = List.range 32 ∧
    (∀ md2 : List Nat, md2.length = 32 → IsBytes md2 →
      renderDigest md2 = renderDigest (List.range 32) → md2 = List.range 32) :=
  C16_decode_render (List.range 32) (by decide) (by decide)

/-- C18 (the decoder is total, its output length depends on the input length
only): for every input string of length `n` and an empty output, the decoder
leaves exactly `ceil(n / 2)` bytes; the content of a non-empty output is kept
and the new bytes come after it; the trailing unpaired character of an
odd-length input is decoded on its own as one byte. -/
theorem C18_decoder_total (s : List Char) (out : List Nat) :
    (hexStringToASCIIString s []).length = (s.length + 1) / 2 ∧
    hexStringToASCIIString s out = out ++ hexStringToASCIIString s [] ∧
    (∀ t a, s = t ++ [a] → t.length % 2 = 0 →
      hexStringToASCIIString s [] = hexStringToASCIIString t [] ++ [toChar (strtol16 [a])]) := by
  refine ⟨?_, hexStringToASCIIString_append s out, ?_⟩
  · rw [hexStringToASCIIString_length]; simp
  · intro t a hs ht
    rw [hs, hexStringToASCIIString_append_even t [a] [] ht]
    rfl

/-! ## `strtol` on an arbitrary pair of characters -/

theorem strtolDigits_pair (a b : Char) :
    strtolDigits 0 [a, b] =
      if (hexDigitValue a).isSome then
        (if (hexDigitValue b).isSome then 16 * digitValue a + digitValue b else digitValue a)
      else 0 := by
  unfold digitValue
  cases ha : hexDigitValue a with
  | none => simp [strtolDigits, ha]
  | some x =>
    cases hb : hexDigitValue b with
    | none => simp [strtolDigits, ha, hb]
    | some y => simp [strtolDigits, ha, hb]

theorem strtolDigits_single (b : Char) : strtolDigits 0 [b] = digitValue b := by
  unfold digitValue
  cases hb : hexDigitValue b with
  | none => simp [strtolDigits, hb]
  | some y => simp [strtolDigits, hb]

theorem hexDigitValue_sign_space (c : Char) (h : isspace c = true ∨ c = '+' ∨ c = '-') :
    hexDigitValue c = none := by
  cases hc : hexDigitValue c with
  | none => rfl
  | some v =>
    exfalso
    obtain ⟨s, m, p, -⟩ := hexChars_facts c (mem_hexChars_of_hexDigitValue c (by simp [hc]))
    rcases h with h | h | h
    · rw [s] at h; exact Bool.noConfusion h
    · exact p h
    · exact m h

theorem strtol16_single (b : Char) : strtol16 [b] = (digitValue b : Int) := by
  unfold strtol16
  by_cases hs : isspace b = true
  · have : digitValue b = 0 := by
      unfold digitValue; rw [hexDigitValue_sign_space b (Or.inl hs)]; rfl
    simp [List.dropWhile, hs, strtolSkip0x, strtolDigits, this]
  · simp only [List.dropWhile, hs]
    split
    · rename_i t h
      simp at h
      have : digitValue b = 0 := by
        unfold digitValue; rw [hexDigitValue_sign_space b (Or.inr (Or.inr h.1))]; rfl
      rw [h.2, this]; simp [strtolSkip0x, strtolDigits]
    · rename_i t h
      simp at h
      have : digitValue b = 0 := by
        unfold digitValue; rw [hexDigitValue_sign_space b (Or.inr (Or.inl h.1))]; rfl
      rw [h.2, this]; simp [strtolSkip0x, strtolDigits]
    · simp only [strtolSkip0x]
      rw [strtolDigits_single]

/-- The byte `strtol` gives to an arbitrary pair of characters. -/
theorem toChar_strtol16_pair (a b : Char) :
    toChar (strtol16 [a, b]) =
      if (hexDigitValue a).isSome then
        (if (hexDigitValue b).isSome then 16 * digitValue a + digitValue b else digitValue a)
      else if isspace a = true ∨ a = '+' then digitValue b
      else if a = '-' then (256 - digitValue b) % 256
      else 0 := by
  have hbl : digitValue b < 16 := by
    unfold digitValue
    cases hb : hexDigitValue b with
    | none => simp
    | some y =>
      have := (hexChars_facts b (mem_hexChars_of_hexDigitValue b (by simp [hb]))).2.2.2.2.1
      unfold digitValue at this
      rw [hb] at this
      exact this
  by_cases hs : isspace a = true
  · have ha : hexDigitValue a = none := hexDigitValue_sign_space a (Or.inl hs)
    have e : strtol16 [a, b] = strtol16 [b] := by
      unfold strtol16
      simp only [List.dropWhile, hs]
    rw [e, strtol16_single]
    simp only [ha, Option.isSome_none, Bool.false_eq_true, if_false, hs, true_or, if_true]
    unfold toChar; omega
  · by_cases hp : a = '+'
    · subst hp
      have e : strtol16 ['+', b] = (digitValue b : Int) := by
        unfold strtol16
        simp only [List.dropWhile, hs, strtolSkip0x]
        rw [strtolDigits_single]
      rw [e, if_neg (by decide), if_pos (by decide)]
      unfold toChar; omega
    · by_cases hm : a = '-'
      · subst hm
        have e : strtol16 ['-', b] = - (digitValue b : Int) := by
          unfold strtol16
          simp only [List.dropWhile, hs, strtolSkip0x]
          rw [strtolDigits_single]
        rw [e, if_neg (by decide), if_neg (by decide), if_pos rfl]
        unfold toChar; omega
      · have e : strtol16 [a, b] = (strtolDigits 0 [a, b] : Int) := by
          unfold strtol16
          simp only [List.dropWhile, hs]
          split
          · rename_i t h; simp at h; exact absurd h.1 hm
          · rename_i t h; simp at h; exact absurd h.1 hp
          · simp [strtolSkip0x]
        rw [e, strtolDigits_pair]
        have hva : digitValue a < 16 ∨ (hexDigitValue a).isSome = false := by
          cases hx : hexDigitValue a with
          | none => right; rfl
          | some y =>
            left
            exact (hexChars_facts a (mem_hexChars_of_hexDigitValue a (by simp [hx]))).2.2.2.2.1
        simp only [hs, hp, hm, or_self, if_false, Bool.false_eq_true]
        unfold toChar
        split_ifs <;> first | rfl | (rcases hva with h | h <;> (simp_all; try omega))

/-! ## Claims on invalid digits and on openings -/

/-- C15, as stated, fails: `strtol` stops at the first character that is not a
hex digit instead of giving it the value 0. The pair `5z` decodes to `0x05`,
not to `16 * 5 = 0x50`, the pair `z5` to `0x00`, not to `0x05`, and the pair
`-1` to `0xff`. -/
theorem C15_invalid_digits_counterexample :
    hexDigitValue 'z' = none ∧
    hexStringToASCIIString ['5', 'z'] [] = [5] ∧
    16 * digitValue '5' + digitValue 'z' = 80 ∧
    hexStringToASCIIString ['z', '5'] [] = [0] ∧
    16 * digitValue 'z' + digitValue '5' = 5 ∧
    hexDigitValue '-' = none ∧
    hexStringToASCIIString ['-', '1'] [] = [255] ∧
    16 * digitValue '-' + digitValue '1' = 1 := by
  decide

/-- C15 as amended: for every pair of characters of which at least one is not a
hex digit, the decoder reports no error and appends one byte, the value
`strtol` gives the pair: `v(d)` for a valid digit `d` followed by an invalid
character; `v` of the second character (0 when it is invalid) when the first
is white space or `+`; `256 - v` of the second character modulo 256 when the
first is `-`; and 0 for any other invalid first character, so that `zz`
decodes to `0x00`. -/
theorem C15_invalid_digits (a b : Char) (out : List Nat)
    (h : hexDigitValue a = none ∨ hexDigitValue b = none) :
    hexStringToASCIIString [a, b] out = out ++
      [if (hexDigitValue a).isSome then digitValue a
        else if isspace a = true ∨ a = '+' then digitValue b
        else if a = '-' then (256 - digitValue b) % 256
        else 0] := by
  rw [hexStringToASCIIString, hexStringToASCIIString, toChar_strtol16_pair]
  by_cases ha : (hexDigitValue a).isSome = true
  · have hb : hexDigitValue b = none := by
      rcases h with h | h
      · rw [h] at ha; exact Bool.noConfusion ha
      · exact h
    simp only [ha, if_true, hb, Option.isSome_none, Bool.false_eq_true, if_false]
  · simp only [ha, Bool.false_eq_true, if_false]

/-- C15 as amended, at the pairs `zz` and `5z`. -/
theorem C15_invalid_digits_witness :
    hexStringToASCIIString ['z', 'z'] [] = [] ++ [0] ∧
    hexStringToASCIIString ['5', 'z'] [] = [] ++ [5] :=
  ⟨C15_invalid_digits 'z' 'z' [] (by decide), C15_invalid_digits '5' 'z' [] (by decide)⟩

/-- C17, as stated, fails in its last part: two different openings of one
commitment need not exhibit a collision. The 33-byte witnesses `00 .. 00 01`
and `00 .. 00 02` open the same commitment with the same randomness, and so do
64 bytes of randomness `aa .. aa` and the 32 bytes of their digest with the
same witness; in both pairs the two calls hash the same message. -/
theorem C17_openings_counterexample :
    decoded (some (hexEncode (List.replicate 32 0 ++ [1]))) ≠
      decoded (some (hexEncode (List.replicate 32 0 ++ [2]))) ∧
    Java_com_vvote_verifierlibrary_utils_crypto_CryptoUtils_openSSLVerifyHashCommitment
      (idealSHA256 sumHash sumHash_isDigestFunction)
      (some (hexEncode (sumHash (List.replicate 32 0 ++ List.replicate 32 17))))
      (some (hexEncode (List.replicate 32 0 ++ [1])))
      (some (hexEncode (List.replicate 32 17))) = Outcome.returned true ∧
    Java_com_vvote_verifierlibrary_utils_crypto_CryptoUtils_openSSLVerifyHashCommitment
      (idealSHA256 sumHash sumHash_isDigestFunction)
      (some (hexEncode (sumHash (List.replicate 32 0 ++ List.replicate 32 17))))
      (some (hexEncode (List.replicate 32 0 ++ [2])))
      (some (hexEncode (List.replicate 32 17))) = Outcome.returned true ∧
    hashedInput sumHash (some (hexEncode (List.replicate 32 0 ++ [1])))
        (some (hexEncode (List.replicate 32 17))) =
      hashedInput sumHash (some (hexEncode (List.replicate 32 0 ++ [2])))
        (some (hexEncode (List.replicate 32 17))) ∧
    decoded (some (hexEncode (List.replicate 64 170))) ≠
      decoded (some (hexEncode (sumHash (List.replicate 64 170)))) ∧
    Java_com_vvote_verifierlibrary_utils_crypto_CryptoUtils_openSSLVerifyHashCommitment
      (idealSHA256 sumHash sumHash_isDigestFunction)
      (some (hexEncode (sumHash (List.replicate 32 0 ++ sumHash (List.replicate 64 170)))))
      (some (hexEncode (List.replicate 32 0)))
      (some (hexEncode (List.replicate 64 170))) = Outcome.returned true ∧
    Java_com_vvote_verifierlibrary_utils_crypto_CryptoUtils_openSSLVerifyHashCommitment
      (idealSHA256 sumHash sumHash_isDigestFunction)
      (some (hexEncode (sumHash (List.replicate 32 0 ++ sumHash (List.replicate 64 170)))))
      (some (hexEncode (List.replicate 32 0)))
      (some (hexEncode (sumHash (List.replicate 64 170)))) = Outcome.returned true ∧
    hashedInput sumHash (some (hexEncode (List.replicate 32 0)))
        (some (hexEncode (List.replicate 64 170))) =
      hashedInput sumHash (some (hexEncode (List.replicate 32 0)))
        (some (hexEncode (sumHash (List.replicate 64 170)))) := by
  decide

/-- C17 as amended: for every digest function `H`, every commitment string and
any two openings whose decoded witness and randomness have at least 32 bytes
each, if the native function returns true on both then the two computed
digests are equal, whichever comparison pass matched in either call; so two
openings whose hashed messages differ exhibit a collision of `H`. -/
theorem C17_accepted_commitment_determines_digest (H : List Nat → List Nat)
    (hH : IsDigestFunction H) (commitment witness1 random1 witness2 random2 : Option (List Char))
    (hw1 : 32 ≤ (decoded witness1).length) (hr1 : 32 ≤ (decoded random1).length)
    (hw2 : 32 ≤ (decoded witness2).length) (hr2 : 32 ≤ (decoded random2).length)
    (h1 : Java_com_vvote_verifierlibrary_utils_crypto_CryptoUtils_openSSLVerifyHashCommitment
      (idealSHA256 H hH) commitment witness1 random1 = Outcome.returned true)
    (h2 : Java_com_vvote_verifierlibrary_utils_crypto_CryptoUtils_openSSLVerifyHashCommitment
      (idealSHA256 H hH) commitment witness2 random2 = Outcome.returned true) :
    H (hashedInput H witness1 random1) = H (hashedInput H witness2 random2) ∧
    (hashedInput H witness1 random1 ≠ hashedInput H witness2 random2 →
      ∃ x y, x ≠ y ∧ H x = H y) := by
  rw [verify_ideal H hH _ _ _ hw1 hr1] at h1
  rw [verify_ideal H hH _ _ _ hw2 hr2] at h2
  have c1 : compareCommitment (hexEncode (H (hashedInput H witness1 random1)))
      (GetJStringContent commitment) = true := by injection h1
  have c2 : compareCommitment (hexEncode (H (hashedInput H witness2 random2)))
      (GetJStringContent commitment) = true := by injection h2
  have e := digest_eq_of_compareCommitment _ _ (hH _).2 (hH _).2 _ c1 c2
  exact ⟨e, fun hne => ⟨_, _, hne, e⟩⟩

/-- C17 as amended, at the commitment `2020..20` opened by `(00 .. 00, 11 .. 11)`
and by `(11 .. 11, 00 .. 00)`. -/
theorem C17_accepted_commitment_determines_digest_witness :
    sumHash (hashedInput sumHash (some (hexEncode (List.replicate 32 0)))
        (some (hexEncode (List.replicate 32 17)))) =
      sumHash (hashedInput sumHash (some (hexEncode (List.replicate 32 17)))
        (some (hexEncode (List.replicate 32 0)))) ∧
    (hashedInput sumHash (some (hexEncode (List.replicate 32 0)))
        (some (hexEncode (List.replicate 32 17))) ≠
      hashedInput sumHash (some (hexEncode (List.replicate 32 17)))
        (some (hexEncode (List.replicate 32 0))) →
      ∃ x y, x ≠ y ∧ sumHash x = sumHash y) :=
  C17_accepted_commitment_determines_digest sumHash sumHash_isDigestFunction
    (some (hexEncode (sumHash (List.replicate 32 0 ++ List.replicate 32 17))))
    (some (hexEncode (List.replicate 32 0))) (some (hexEncode (List.replicate 32 17)))
    (some (hexEncode (List.replicate 32 17))) (some (hexEncode (List.replicate 32 0)))
    (by decide) (by decide) (by decide) (by decide) (by decide) (by decide)

end CryptoUtils
